import Mathlib

/-! MidiFile-Project: parser, alteration engine and song library.

A shallow embedding of `src/parser.c`, `src/alterations.c` and `src/library.c`.

* A `FILE *` is the list of bytes not yet read (`List Nat`, each byte read modulo 256).
* `uint8_t`, `uint16_t` and `uint32_t` are `Nat` with explicit reduction modulo `2^8`, `2^16`
  and `2^32`; `int` is `Int`.
* A C function that can run forever, stop on `assert`, or read past the end of the file into an
  indeterminate buffer returns a `Res`.
* A field that the code reads and never wrote holds what the memory held: that content is a
  parameter of the function that allocates the block.
* A non-negative `float` is a mantissa and a binary exponent, and the single-precision
  operations round on integers.
-/

namespace MidiFile

/-! ## Outcomes -/

/-- Outcome of running a piece of the C program on the model.
`ok a` is a normal return; `fuel` means the loop budget of the model ran out (the C loop had not
ended yet); `assertFail` is a failed `assert`; `shortRead` is an `fread` (or one-byte read helper)
that met the end of the file, which leaves the destination indeterminate. -/
inductive Res (α : Type) where
  | ok : α → Res α
  | fuel : Res α
  | assertFail : Res α
  | shortRead : Res α
  deriving DecidableEq, Repr

/-- Sequencing of outcomes: the first outcome that is not `ok` ends the run. -/
def Res.bind {α β : Type} (x : Res α) (f : α → Res β) : Res β :=
  match x with
  | .ok a => f a
  | .fuel => .fuel
  | .assertFail => .assertFail
  | .shortRead => .shortRead

instance : Monad Res where
  pure := Res.ok
  bind := Res.bind

/-- Apply a function to the value of a normal return. -/
def Res.mapOk {α β : Type} (f : α → β) (x : Res α) : Res β :=
  match x with
  | .ok a => .ok (f a)
  | .fuel => .fuel
  | .assertFail => .assertFail
  | .shortRead => .shortRead

/-! ## Byte streams -/

/-- The unread part of a `FILE *`. -/
abbrev Stream := List Nat

/-- C `fgetc`: the next byte as an `int`, or `EOF` (-1) at the end of the file. -/
def fgetc (fp : Stream) : Int × Stream :=
  match fp with
  | [] => (-1, [])
  | b :: rest => (((b % 256 : Nat) : Int), rest)

/-- Conversion of an `int` to `uint8_t`. -/
def to_u8 (c : Int) : Nat := (c % 256).toNat

/-- C `fread(buf, 1, n, fp)`: the next `n` bytes; with fewer than `n` bytes left the buffer is
only partly written and the outcome is `shortRead`. -/
def fread (n : Nat) (fp : Stream) : Res (List Nat × Stream) :=
  if n ≤ fp.length then .ok ((fp.take n).map (· % 256), fp.drop n) else .shortRead

/-! ## Variable-length quantities (`parse_var_len`, parser.c 353-361) -/

/-- The `do ... while (byte & 0x80)` loop of `parse_var_len`, with `result` the accumulator. -/
def parse_var_len_loop : Nat → Nat → Stream → Res (Nat × Stream)
  | 0, _, _ => .fuel
  | fuel + 1, result, fp =>
    let byte := to_u8 (fgetc fp).1
    let fp1 := (fgetc fp).2
    let result1 := ((result <<< 7) % 2 ^ 32) ||| (byte &&& 0x7F)
    if byte &&& 0x80 ≠ 0 then parse_var_len_loop fuel result1 fp1
    else .ok (result1, fp1)

/-- Source `parse_var_len`: returns the decoded `uint32_t` and the rest of the stream. -/
def parse_var_len (fuel : Nat) (fp : Stream) : Res (Nat × Stream) :=
  parse_var_len_loop fuel 0 fp

/-- The integer formed by concatenating the low 7 bits of each byte, first byte most
significant (the claim's wording, not the source's). -/
def concat7 (bytes : List Nat) : Nat :=
  bytes.foldl (fun acc b => acc * 128 + b % 128) 0

/-- Accumulation of 7-bit groups from a start value, the fold of `concat7` with its start value made explicit. -/
def acc7 (result : Nat) (bytes : List Nat) : Nat :=
  bytes.foldl (fun acc b => acc * 128 + b % 128) result

/-- Modelled from the spec: no encoder is in the source. This is the standard VLQ encoding of the
glossary, "a big-endian base-128 integer encoding where each byte's high bit flags continuation":
the continuation bytes for the 7-bit groups of `n`, most significant first, at most `k` of them. -/
def encode_hi : Nat → Nat → List Nat
  | 0, _ => []
  | k + 1, n => if n = 0 then [] else encode_hi k (n / 128) ++ [n % 128 + 128]

/-- Modelled from the spec: the VLQ encoding of a `u32` value (§4.1, §8, glossary); the encoder
is not in the source. The last byte holds the low 7 bits with the high bit clear. -/
def encode (v : Nat) : List Nat :=
  encode_hi 4 (v / 128) ++ [v % 128]

/-- Modelled from the spec: `encoded_width` of §4.1, "1 byte per 7 bits, minimum 1 byte, values
≥ 0x0FFFFFFF clamp to the 4-byte maximum"; the source calls it `get_event_length_var_len` and
`count_varlen_bytes` without defining it. -/
def encoded_width (value : Nat) : Nat :=
  if value < 2 ^ 7 then 1
  else if value < 2 ^ 14 then 2
  else if value < 2 ^ 21 then 3
  else 4

/-- Modelled from the spec: `read_variable_length`, called by `parse_event` and
`parse_meta_event`, is not defined in the source. §4.1 has a single VLQ decoder, which the source
implements as `parse_var_len`; the model uses that loop. -/
def read_variable_length (fuel : Nat) (fp : Stream) : Res (Nat × Stream) :=
  parse_var_len fuel fp

/-- Modelled from the spec: `get_event_length_var_len` is not defined in the source; it is the
`encoded_width` of §4.1. -/
def get_event_length_var_len (delta_time : Nat) : Nat :=
  encoded_width delta_time

/-! ## Header chunk (`parse_header`, parser.c 118-142) -/

/-- The value of a `uint16_t` whose two bytes `fread` filled in memory order, on a little-endian
host (`le = true`) or a big-endian one. -/
def host_u16 (le : Bool) (bytes : List Nat) : Nat :=
  match bytes with
  | [b0, b1] => if le then b0 + 256 * b1 else 256 * b0 + b1
  | _ => 0

/-- The value of a `uint32_t` whose four bytes `fread` filled in memory order. -/
def host_u32 (le : Bool) (bytes : List Nat) : Nat :=
  match bytes with
  | [b0, b1, b2, b3] =>
    if le then b0 + 256 * b1 + 65536 * b2 + 16777216 * b3
    else 16777216 * b0 + 65536 * b1 + 256 * b2 + b3
  | _ => 0

/-- Byte reversal of a 32-bit value. -/
def bswap32 (x : Nat) : Nat :=
  (x % 256) * 16777216 + (x / 256 % 256) * 65536 + (x / 65536 % 256) * 256 + x / 16777216 % 256

/-- Library `be32toh`: byte reversal on a little-endian host, identity on a big-endian one. -/
def be32toh (le : Bool) (x : Nat) : Nat :=
  if le then bswap32 x else x

/-- The big-endian 16-bit value of two bytes, as the Standard MIDI File format lays fields out. -/
def be16 (b0 b1 : Nat) : Nat := 256 * b0 + b1

/-- The bytes of the literal `"MThd"`. -/
def MThd : List Nat := [0x4D, 0x54, 0x68, 0x64]

/-- The bytes of the literal `"MTrk"`. -/
def MTrk : List Nat := [0x4D, 0x54, 0x72, 0x6B]

namespace Track

/-- Meta event as `parse_event` fills it. -/
structure meta_event_t where
  meta_type : Nat
  data_len : Nat
  data : List Nat
  deriving DecidableEq, Repr

/-- System-exclusive event as `parse_event` fills it. -/
structure sys_event_t where
  data_len : Nat
  data : List Nat
  deriving DecidableEq, Repr

/-- Channel event as `parse_event` fills it. -/
structure midi_event_t where
  channel : Nat
  type : Nat
  data_len : Nat
  data : List Nat
  deriving DecidableEq, Repr

/-- The union `event_data` with the member that `parse_event` assigned. -/
inductive event_data_t where
  | meta_event : meta_event_t → event_data_t
  | sys_event : sys_event_t → event_data_t
  | midi_event : midi_event_t → event_data_t
  deriving DecidableEq, Repr

/-- An event as `parse_event` returns it. `data_len` is the field `event->data_len` that
`parse_track` reads. `parse_event` stores a length in the `data_len` of the union member it
allocates and never writes the field of that name on the event itself: the field holds what the
block that `malloc` returned held, reduced modulo `2^32` as the sum in `parse_track` is. -/
structure event_t where
  delta_time : Nat
  type : Nat
  data_len : Nat
  event_data : event_data_t
  deriving DecidableEq, Repr

/-- A track: its events in file order. -/
structure track_t where
  event_list : List event_t
  deriving DecidableEq, Repr

/-- The song as `parse_header` and `parse_track` write it. -/
structure song_data_t where
  format : Nat
  num_tracks : Nat
  division : Nat
  track_list : List track_t
  deriving DecidableEq, Repr

end Track

open Track in
/-- Source `parse_header`. `le` is the host's byte order: the three 16-bit fields are read with
`fread` straight into `uint16_t` variables, with no byte swap. `chunk_size` is read and never
used, so its read only advances the stream. -/
def parse_header (le : Bool) (fp : Stream) (song : song_data_t) : Res (song_data_t × Stream) := do
  let (chunk_type, fp1) ← fread 4 fp
  let fp2 := fp1.drop 4
  if chunk_type ≠ MThd then Res.assertFail
  else do
    let (format_bytes, fp3) ← fread 2 fp2
    let (num_tracks_bytes, fp4) ← fread 2 fp3
    let (division_bytes, fp5) ← fread 2 fp4
    let format := host_u16 le format_bytes
    let num_tracks := host_u16 le num_tracks_bytes
    let division := host_u16 le division_bytes
    if ¬ (format = 0 ∨ format = 1 ∨ format = 2) then Res.assertFail
    else
      pure ({ song with format := format, num_tracks := num_tracks, division := division }, fp5)

/-! ## Track chunks (`parse_event` 182-227, `parse_track` 143-181) -/

open Track in
/-- Source `parse_event`. `tbl t` is `MIDI_TABLE[t].data_len`; the table is not in the source.
`delta_time` passes through an `int` and back to the unsigned field, which keeps its 32 bits.
`unwritten` is what the block that `malloc(sizeof(event_t))` returns holds in the field
`data_len`: the function writes `type`, `event_data` and `delta_time` and leaves that field as it
found it. -/
def parse_event (tbl : Nat → Nat) (unwritten : Nat) (fuel : Nat) (fp : Stream) :
    Res (event_t × Stream) := do
  let (delta_time, fp1) ← read_variable_length fuel fp
  let status_byte := to_u8 (fgetc fp1).1
  let fp2 := (fgetc fp1).2
  if status_byte = 0xFF then do
    let meta_type := to_u8 (fgetc fp2).1
    let fp3 := (fgetc fp2).2
    let (data_len, fp4) ← read_variable_length fuel fp3
    let (data, fp5) ← fread data_len fp4
    pure ({ delta_time := delta_time, type := 0xFF, data_len := unwritten,
            event_data := .meta_event { meta_type := meta_type, data_len := data_len,
                                        data := data } }, fp5)
  else if status_byte = 0xF0 ∨ status_byte = 0xF7 then do
    let (data_len, fp3) ← read_variable_length fuel fp2
    let (data, fp4) ← fread data_len fp3
    pure ({ delta_time := delta_time, type := if status_byte = 0xF0 then 0xF0 else 0xF7,
            data_len := unwritten,
            event_data := .sys_event { data_len := data_len, data := data } }, fp4)
  else do
    let event_type := status_byte >>> 4
    let data_len := tbl event_type
    let (data, fp3) ← if data_len > 0 then fread data_len fp2 else pure ([], fp2)
    pure ({ delta_time := delta_time, type := event_type, data_len := unwritten,
            event_data := .midi_event { channel := status_byte &&& 0x0F, type := event_type,
                                        data_len := data_len, data := data } }, fp3)

open Track in
/-- Modelled from the spec: `add_event_to_track` is not in the source; by §3 a track is the
ordered sequence of its events in serialization order, so the event goes to the end. -/
def add_event_to_track (track : track_t) (event : event_t) : track_t :=
  { track with event_list := track.event_list ++ [event] }

open Track in
/-- The `while (bytes_read < chunk_length)` loop of `parse_track`. `bytes_read` is a
`uint32_t`. `heap k` is what the block that `malloc` returns for the `k`-th event decoded from
here on holds in the field `data_len`, which `parse_event` leaves unwritten and the loop adds to
its count. Returns the track, the final `bytes_read` and the rest of the stream. -/
def parse_track_loop (tbl : Nat → Nat) :
    (Nat → Nat) → Nat → Nat → Nat → track_t → Stream → Res (track_t × Nat × Stream)
  | _, 0, _, _, _, _ => .fuel
  | heap, fuel + 1, chunk_length, bytes_read, track, fp =>
    if bytes_read < chunk_length then
      match parse_event tbl (heap 0) fuel fp with
      | .ok (event, fp1) =>
        parse_track_loop tbl (fun k => heap (k + 1)) fuel chunk_length
          ((bytes_read + (event.data_len + get_event_length_var_len event.delta_time)) % 2 ^ 32)
          (add_event_to_track track event) fp1
      | .fuel => .fuel
      | .assertFail => .assertFail
      | .shortRead => .shortRead
    else .ok (track, bytes_read, fp)

open Track in
/-- Source `parse_track`. `chunk_type4` is the content of `chunk_type[4]`, which the function
never writes and `strcmp` reads as the terminator. `heap` is as in `parse_track_loop`. The new
track goes to the end of the song's track list. -/
def parse_track (tbl : Nat → Nat) (le : Bool) (chunk_type4 : Nat) (heap : Nat → Nat) (fuel : Nat)
    (fp : Stream) (song : song_data_t) : Res (song_data_t × Stream) := do
  let (chunk_type, fp1) ← fread 4 fp
  if ¬ (chunk_type = MTrk ∧ chunk_type4 = 0) then Res.assertFail
  else do
    let (len_bytes, fp2) ← fread 4 fp1
    let chunk_length := be32toh le (host_u32 le len_bytes)
    let (track, _, fp3) ← parse_track_loop tbl heap fuel chunk_length 0 { event_list := [] } fp2
    pure ({ song with track_list := song.track_list ++ [track] }, fp3)

/-! ## Stand-alone event decoders (`parse_meta_event` 255-288, `parse_midi_event` 289-349) -/

/-- Modelled from the spec: `fread_u8` is not defined in the source; by its name and its use it
reads one unsigned byte from the file. At the end of the file there is no byte to give and the
outcome is `shortRead`. -/
def fread_u8 (fp : Stream) : Res (Nat × Stream) :=
  match fp with
  | [] => .shortRead
  | b :: rest => .ok (b % 256, rest)

/-- The `for` loop of `parse_meta_event` that fills `data` with `length` calls of `fgetc`. -/
def read_data_bytes : Nat → Stream → List Nat × Stream
  | 0, fp => ([], fp)
  | n + 1, fp =>
    let byte := to_u8 (fgetc fp).1
    let r := read_data_bytes n (fgetc fp).2
    (byte :: r.1, r.2)

namespace Meta

/-- The constants and tables that `parse_meta_event` uses and the source does not define:
the macros `META_END_OF_TRACK` and `META_TEMPO_CHANGE`, the columns `fixed_length` and `name` of
its `META_TABLE`, and the helper `get_tempo_from_bytes`. -/
structure env_t where
  META_END_OF_TRACK : Nat
  META_TEMPO_CHANGE : Nat
  fixed_length : Nat → Int
  name : Nat → String
  get_tempo_from_bytes : List Nat → Nat

/-- The result of `parse_meta_event`. A field the function leaves unwritten is `none`; `data` is
`none` for the `NULL` pointer. -/
structure meta_event_t where
  type : Nat
  name : Option String
  data_len : Nat
  data : Option (List Nat)
  tempo : Option Nat
  deriving DecidableEq, Repr

end Meta

open Meta in
/-- Source `parse_meta_event`. The `uint32_t` length is compared with the table's `int` after
the usual conversion to unsigned. -/
def parse_meta_event (env : env_t) (fuel : Nat) (file : Stream) :
    Res (meta_event_t × Stream) :=
  let type := to_u8 (fgetc file).1
  let file1 := (fgetc file).2
  if type = env.META_END_OF_TRACK then
    .ok ({ type := env.META_END_OF_TRACK, name := none, data_len := 0, data := none,
           tempo := none }, file1)
  else do
    let (length, file2) ← read_variable_length fuel file1
    if env.fixed_length type ≠ -1 ∧ (length : Int) ≠ env.fixed_length type % 2 ^ 32 then
      Res.assertFail
    else
      let r := read_data_bytes length file2
      pure ({ type := type, name := some (env.name type), data_len := length, data := some r.1,
              tempo := if type = env.META_TEMPO_CHANGE then some (env.get_tempo_from_bytes r.1)
                       else none }, r.2)

namespace Midi

/-- The union `event.data` of `parse_midi_event` with the member the function wrote; `unset` when
it wrote none. -/
inductive data_t where
  | unset : data_t
  | note_off (channel note velocity : Nat) : data_t
  | note_on (channel note velocity : Nat) : data_t
  | polyphonic_pressure (channel note pressure : Nat) : data_t
  | control_change (channel controller value : Nat) : data_t
  | program_change (channel program : Nat) : data_t
  | channel_pressure (channel pressure : Nat) : data_t
  | pitch_bend (channel value : Nat) : data_t
  deriving DecidableEq, Repr

/-- The result of `parse_midi_event`. -/
structure midi_event_t where
  name : String
  type : Nat
  data : data_t
  deriving DecidableEq, Repr

end Midi

open Midi in
/-- The `switch (status >> 4)` of `parse_midi_event`: `type` is the value already stored in
`event.type`, `status` the byte the switch looks at. The two reads of the pitch-bend case are
taken left to right. The warning printed in the default case is not modelled; `fseek` past the
end of the file leaves nothing to read. -/
def parse_midi_event_switch (type status : Nat) (midi_file : Stream) :
    Res (midi_event_t × Stream) :=
  if status >>> 4 = 0x8 then do
    let (note, f1) ← fread_u8 midi_file
    let (velocity, f2) ← fread_u8 f1
    pure ({ name := "Note Off", type := type,
            data := .note_off (status &&& 0x0F) note velocity }, f2)
  else if status >>> 4 = 0x9 then do
    let (note, f1) ← fread_u8 midi_file
    let (velocity, f2) ← fread_u8 f1
    pure ({ name := "Note On", type := type,
            data := .note_on (status &&& 0x0F) note velocity }, f2)
  else if status >>> 4 = 0xA then do
    let (note, f1) ← fread_u8 midi_file
    let (pressure, f2) ← fread_u8 f1
    pure ({ name := "Polyphonic Key Pressure", type := type,
            data := .polyphonic_pressure (status &&& 0x0F) note pressure }, f2)
  else if status >>> 4 = 0xB then do
    let (controller, f1) ← fread_u8 midi_file
    let (value, f2) ← fread_u8 f1
    pure ({ name := "Control Change", type := type,
            data := .control_change (status &&& 0x0F) controller value }, f2)
  else if status >>> 4 = 0xC then do
    let (program, f1) ← fread_u8 midi_file
    pure ({ name := "Program Change", type := type,
            data := .program_change (status &&& 0x0F) program }, f1)
  else if status >>> 4 = 0xD then do
    let (pressure, f1) ← fread_u8 midi_file
    pure ({ name := "Channel Pressure", type := type,
            data := .channel_pressure (status &&& 0x0F) pressure }, f1)
  else if status >>> 4 = 0xE then do
    let (hi, f1) ← fread_u8 midi_file
    let (lo, f2) ← fread_u8 f1
    pure ({ name := "Pitch Bend", type := type,
            data := .pitch_bend (status &&& 0x0F) ((hi <<< 7) ||| lo) }, f2)
  else do
    let (data_len, f1) ← fread_u8 midi_file
    pure ({ name := "MIDI Event", type := type, data := .unset }, f1.drop data_len)

open Midi in
/-- Source `parse_midi_event`; `status` is a `uint8_t`. -/
def parse_midi_event (midi_file : Stream) (status : Nat) : Res (midi_event_t × Stream) :=
  if status &&& 0x80 = 0 then do
    let (status1, f1) ← fread_u8 midi_file
    parse_midi_event_switch status status1 f1
  else
    parse_midi_event_switch status status midi_file

/-! ## Octave shift (`change_event_octave`, alterations.c 18-37) -/

namespace Alter

/-- The event-type macros of `alterations.c`, which the source does not define. -/
structure kinds_t where
  NOTE_ON : Nat
  NOTE_OFF : Nat
  POLY_PRESSURE : Nat
  PROGRAM_CHANGE : Nat

/-- The event of `alterations.c`, with the fields its functions use; `midi_data` and `data` are
arrays of `uint8_t`. -/
structure event_t where
  delta_time : Nat
  type : Nat
  midi_data : List Nat
  data : List Nat
  deriving DecidableEq, Repr

/-- The note of an event as `change_event_octave` extracts it: `midi_data[0] & 0x7F`. -/
def event_t.note (event : event_t) : Nat :=
  event.midi_data.getD 0 0 &&& 0x7F

end Alter

open Alter in
/-- Source `change_event_octave`: the event after the call and the returned `int`. `/` and `%`
on `int` truncate toward zero. -/
def change_event_octave (K : kinds_t) (event : event_t) (octaves : Int) : event_t × Int :=
  if event.type ≠ K.NOTE_ON ∧ event.type ≠ K.NOTE_OFF ∧ event.type ≠ K.POLY_PRESSURE then
    (event, 0)
  else
    let note_value : Int := ((event.midi_data.getD 0 0 &&& 0x7F : Nat) : Int)
    let new_octave : Int := Int.tdiv (note_value + octaves * 12) 12
    if new_octave < 0 ∨ new_octave > 10 then (event, 0)
    else
      let note_value1 : Int := Int.tmod note_value 12
      let note_value2 : Int := note_value1 + new_octave * 12
      let byte0 := event.midi_data.getD 0 0 &&& 0xF0
      let byte1 := (byte0 ||| note_value2.toNat) % 256
      ({ event with midi_data := event.midi_data.set 0 byte1 }, 1)

/-- Modelled from the spec: the column `data_len` of `MIDI_TABLE`, which is not in the source.
§4.3: "2 bytes for note-on/off, pressure, control-change, pitch-bend; 1 byte for
program-change/channel-pressure"; the spec gives no count for the other nibbles, taken as 0. -/
def MIDI_TABLE_data_len (event_type : Nat) : Nat :=
  if event_type = 0xC ∨ event_type = 0xD then 1
  else if 0x8 ≤ event_type ∧ event_type ≤ 0xE then 2
  else 0

/-- The note-on event `90 n 40` with delta-time 0, as `parse_event` returns it when the field
`data_len` of the event's block held `unwritten`. -/
def note_on_event (unwritten n : Nat) : Track.event_t :=
  { delta_time := 0, type := 9, data_len := unwritten,
    event_data := .midi_event { channel := 0, type := 9, data_len := 2, data := [n, 0x40] } }

/-- A meta event with an empty payload, as `parse_event` returns it when the field `data_len` of
the event's block held `unwritten`. -/
def empty_meta_event (unwritten delta_time meta_type : Nat) : Track.event_t :=
  { delta_time := delta_time, type := 0xFF, data_len := unwritten,
    event_data := .meta_event { meta_type := meta_type, data_len := 0, data := [] } }

/-- The event of `parse_midi_event` with its `type` field replaced. -/
def with_type (type : Nat) (r : Midi.midi_event_t × Stream) : Midi.midi_event_t × Stream :=
  ({ r.1 with type := type }, r.2)

/-- Number of bytes of the stream `fp` that were consumed when `rest` is what is left. -/
def consumed (fp rest : Stream) : Nat := fp.length - rest.length

/-! ## Whole-song alterations (`apply_to_events` 8-16, `change_octave` 80-87,
`change_event_time` 38-59, `warp_time` 88-118, `remap_instruments` 119-138) -/

namespace Alter

/-- The header of a song, with the field `warp_time` uses. -/
structure header_t where
  time_division : Nat
  deriving DecidableEq, Repr

/-- A track of `alterations.c`: `num_events` is the length of `events`; `length` is the cached
serialized length. -/
structure track_t where
  events : List event_t
  length : Nat
  deriving DecidableEq, Repr

/-- A song of `alterations.c`: `num_tracks` is the length of `tracks`. -/
structure song_data_t where
  header : header_t
  tracks : List track_t
  deriving DecidableEq, Repr

/-- The helpers that `warp_time` calls and the source does not define. -/
structure warp_env_t where
  get_delta_time_length : Int → Int
  get_track_length : track_t → Int → Nat
  get_variable_length_quantity_length : Int → Int
  get_header_length : header_t → Int
  get_tracks_length : song_data_t → Int

/-- Whether an event is note-bearing for `change_event_octave`. -/
def is_note_bearing (K : kinds_t) (event : event_t) : Bool :=
  decide (event.type = K.NOTE_ON ∨ event.type = K.NOTE_OFF ∨ event.type = K.POLY_PRESSURE)

/-- Number of events of a song that satisfy `p`. -/
def count_events (p : event_t → Bool) (song : song_data_t) : Nat :=
  (song.tracks.map (fun t => t.events.countP p)).sum

/-- The song with `f` applied to every event. -/
def map_events (f : event_t → event_t) (song : song_data_t) : song_data_t :=
  { song with tracks := song.tracks.map (fun t => { t with events := t.events.map f }) }

/-- All events of a song, track after track. -/
def all_events (song : song_data_t) : List event_t :=
  song.tracks.flatMap (fun t => t.events)

end Alter

/-- Conversion of an unsigned 32-bit value to `int`. -/
def to_i32 (x : Nat) : Int :=
  if x % 2 ^ 32 < 2 ^ 31 then ((x % 2 ^ 32 : Nat) : Int) else ((x % 2 ^ 32 : Nat) : Int) - 2 ^ 32

/-- Conversion of an `int` to an unsigned 32-bit value. -/
def to_u32 (v : Int) : Nat := (v % 2 ^ 32).toNat

open Alter in
/-- The inner `for` loop of `apply_to_events` over the events of one track, `sum` running. -/
def apply_to_events_events (func : event_t → event_t × Int) :
    List event_t → Int → List event_t × Int
  | [], sum => ([], sum)
  | event :: rest, sum =>
    let r := func event
    let s := apply_to_events_events func rest (sum + r.2)
    (r.1 :: s.1, s.2)

open Alter in
/-- The outer `for` loop of `apply_to_events` over the tracks. -/
def apply_to_events_tracks (func : event_t → event_t × Int) :
    List track_t → Int → List track_t × Int
  | [], sum => ([], sum)
  | track :: rest, sum =>
    let r := apply_to_events_events func track.events sum
    let s := apply_to_events_tracks func rest r.2
    ({ track with events := r.1 } :: s.1, s.2)

open Alter in
/-- Source `apply_to_events`: `func` gets each event (with `data` bound in it), may change it, and
returns an `int` that is added to `sum`. -/
def apply_to_events (song : song_data_t) (func : event_t → event_t × Int) : song_data_t × Int :=
  let r := apply_to_events_tracks func song.tracks 0
  ({ song with tracks := r.1 }, r.2)

open Alter in
/-- Source `change_octave`. -/
def change_octave (K : kinds_t) (song : song_data_t) (num_octaves : Int) : song_data_t × Int :=
  apply_to_events song (fun event => change_event_octave K event num_octaves)

/-- Modelled from the spec: `count_varlen_bytes` is not defined in the source; it is the
`encoded_width` of §4.1. -/
def count_varlen_bytes (value : Nat) : Int :=
  (encoded_width value : Int)

open Alter in
/-- Source `change_event_time`. `scaled d` stands for the value of the C expression
`(uint32_t) (*multiplier * d)`; `scaled_f32` below computes it in single precision. -/
def change_event_time (scaled : Nat → Nat) (event : event_t) : event_t × Int :=
  let old_delta_time := event.delta_time
  let new_delta_time0 := scaled old_delta_time
  let new_delta_time := if new_delta_time0 > 0x0FFFFFFF then 0x0FFFFFFF else new_delta_time0
  if old_delta_time ≠ new_delta_time then
    ({ event with delta_time := new_delta_time },
      count_varlen_bytes new_delta_time - count_varlen_bytes old_delta_time)
  else (event, 0)

open Alter in
/-- The inner loop of the first part of `warp_time`, over the events of one track.
`scale x` stands for the value of the C expression `(int) (x * multiplier)`. -/
def warp_time_events (env : warp_env_t) (scale : Nat → Int) :
    List event_t → Int → List event_t × Int
  | [], delta_time_diff => ([], delta_time_diff)
  | event :: rest, delta_time_diff =>
    let old_delta_time : Int := to_i32 event.delta_time
    let event1 := { event with delta_time := to_u32 (scale event.delta_time) }
    let s := warp_time_events env scale rest
      (delta_time_diff + (env.get_delta_time_length (to_i32 event1.delta_time)
        - env.get_delta_time_length old_delta_time))
    (event1 :: s.1, s.2)

open Alter in
/-- The first outer loop of `warp_time`, over the tracks. -/
def warp_time_tracks (env : warp_env_t) (scale : Nat → Int) :
    List track_t → Int → List track_t × Int
  | [], delta_time_diff => ([], delta_time_diff)
  | track :: rest, delta_time_diff =>
    let r := warp_time_events env scale track.events delta_time_diff
    let s := warp_time_tracks env scale rest r.2
    ({ track with events := r.1 } :: s.1, s.2)

open Alter in
/-- The second loop of `warp_time`, which recomputes the length of each track. -/
def warp_time_lengths (env : warp_env_t) (new_time_division : Int) :
    List track_t → Int → List track_t × Int
  | [], length_diff => ([], length_diff)
  | track :: rest, length_diff =>
    let old_length : Int := to_i32 track.length
    let track1 := { track with length := env.get_track_length track new_time_division }
    let s := warp_time_lengths env new_time_division rest
      (length_diff + (env.get_variable_length_quantity_length (to_i32 track1.length)
        - env.get_variable_length_quantity_length old_length))
    (track1 :: s.1, s.2)

open Alter in
/-- Source `warp_time`: the song after the call and the returned `int`. Floating point is not
modelled: `scale x` stands for the value of the C expression `(int) (x * multiplier)`. -/
def warp_time (env : warp_env_t) (scale : Nat → Int) (song : song_data_t) : song_data_t × Int :=
  let new_time_division : Int := scale song.header.time_division
  let r := warp_time_tracks env scale song.tracks 0
  let l := warp_time_lengths env new_time_division r.1 0
  let song1 : song_data_t :=
    { header := { time_division := to_u32 new_time_division }, tracks := l.1 }
  (song1, r.2 + l.2 + env.get_header_length song1.header + env.get_tracks_length song1)

open Alter in
/-- The inner loop of `remap_instruments` over the events of one track. `EVENT_TYPE_PROGRAM_CHANGE`
is a macro the source does not define; `mapping p` is the entry `mapping[p]`. -/
def remap_instruments_events (EVENT_TYPE_PROGRAM_CHANGE : Nat) (mapping : Nat → Int) :
    List event_t → Int → List event_t × Int
  | [], num_events_modified => ([], num_events_modified)
  | event :: rest, num_events_modified =>
    if event.type = EVENT_TYPE_PROGRAM_CHANGE then
      let old_instrument := event.data.getD 0 0
      if mapping old_instrument ≠ -1 then
        let event1 := { event with data := event.data.set 0 (to_u8 (mapping old_instrument)) }
        let s := remap_instruments_events EVENT_TYPE_PROGRAM_CHANGE mapping rest
          (num_events_modified + 1)
        (event1 :: s.1, s.2)
      else
        let s := remap_instruments_events EVENT_TYPE_PROGRAM_CHANGE mapping rest
          num_events_modified
        (event :: s.1, s.2)
    else
      let s := remap_instruments_events EVENT_TYPE_PROGRAM_CHANGE mapping rest num_events_modified
      (event :: s.1, s.2)

open Alter in
/-- The outer loop of `remap_instruments` over the tracks. -/
def remap_instruments_tracks (EVENT_TYPE_PROGRAM_CHANGE : Nat) (mapping : Nat → Int) :
    List track_t → Int → List track_t × Int
  | [], num_events_modified => ([], num_events_modified)
  | track :: rest, num_events_modified =>
    let r := remap_instruments_events EVENT_TYPE_PROGRAM_CHANGE mapping track.events
      num_events_modified
    let s := remap_instruments_tracks EVENT_TYPE_PROGRAM_CHANGE mapping rest r.2
    ({ track with events := r.1 } :: s.1, s.2)

open Alter in
/-- Source `remap_instruments`. Modelled from the spec: the type `remapping_t` is not in the
source; by §4.4 it is a table of 128 `i32` entries with the sentinel -1. -/
def remap_instruments (EVENT_TYPE_PROGRAM_CHANGE : Nat) (mapping : Nat → Int)
    (song : song_data_t) : song_data_t × Int :=
  let r := remap_instruments_tracks EVENT_TYPE_PROGRAM_CHANGE mapping song.tracks 0
  ({ song with tracks := r.1 }, r.2)

open Alter in
/-- What the claim says `remap_instruments` does to one event: a program-change event whose
program byte `p` has `mapping[p] ≠ -1` gets `mapping[p]` as its program byte; every other event
is left as it is. -/
def remap_event_spec (EVENT_TYPE_PROGRAM_CHANGE : Nat) (mapping : Nat → Int)
    (event : event_t) : event_t :=
  if event.type = EVENT_TYPE_PROGRAM_CHANGE ∧ mapping (event.data.getD 0 0) ≠ -1 then
    { event with data := event.data.set 0 (mapping (event.data.getD 0 0)).toNat }
  else event

open Alter in
/-- Whether `remap_instruments` is to count an event: a program-change event whose entry is not
the sentinel. -/
def is_remapped (EVENT_TYPE_PROGRAM_CHANGE : Nat) (mapping : Nat → Int) (event : event_t) : Bool :=
  decide (event.type = EVENT_TYPE_PROGRAM_CHANGE ∧ mapping (event.data.getD 0 0) ≠ -1)

open Alter in
/-- An event after the first loop of `warp_time`. -/
def warp_event (scale : Nat → Int) (event : event_t) : event_t :=
  { event with delta_time := to_u32 (scale event.delta_time) }

open Alter in
/-- The sum, over all events of the tracks, of the width `get_delta_time_length` gives the new
delta-time minus the width it gives the old one. -/
def delta_width_sum (env : warp_env_t) (scale : Nat → Int) (tracks : List track_t) : Int :=
  ((tracks.flatMap (fun t => t.events)).map (fun e =>
    env.get_delta_time_length (to_i32 (to_u32 (scale e.delta_time)))
      - env.get_delta_time_length (to_i32 e.delta_time))).sum

open Alter in
/-- The sum, over the tracks, of the width `get_variable_length_quantity_length` gives the
recomputed track length minus the width it gives the old one. -/
def length_width_sum (env : warp_env_t) (scale : Nat → Int) (new_time_division : Int)
    (tracks : List track_t) : Int :=
  (tracks.map (fun t =>
    env.get_variable_length_quantity_length
        (to_i32 (env.get_track_length { t with events := t.events.map (warp_event scale) }
          new_time_division))
      - env.get_variable_length_quantity_length (to_i32 t.length))).sum

/-- The mapping that sends program 5 to 40 and leaves every other program alone. -/
def mapping_5_to_40 (p : Nat) : Int := if p = 5 then 40 else -1

/-! ## Round duplication (`add_round`, alterations.c 156-220) -/

namespace Round

/-- The event-type macros of `add_round`, which the source does not define. -/
structure kinds_t where
  NOTE_EVENT : Nat
  MIDI_PROGRAM_CHANGE_EVENT : Nat
  MIDI_CHANNEL_EVENT : Nat

/-- The event of `add_round`, with the fields it uses: `channel` and `program` are
`midi_data.channel` and `midi_data.program`, `octave` is `note.octave`. -/
structure event_t where
  type : Nat
  delta_time : Nat
  channel : Nat
  program : Nat
  octave : Int
  deriving DecidableEq, Repr

/-- The track of `add_round`: `event_count` is the length of `events`. Modelled from the spec:
the declaration is not in the source; by §4.4 the copy `add_round` makes is a deep copy, so the
track holds its events by value. -/
structure track_t where
  events : List event_t
  length : Nat
  division : Nat
  deriving DecidableEq, Repr

/-- The song of `add_round`: `num_tracks` is the length of `tracks`. -/
structure song_data_t where
  tracks : List track_t
  format : Nat
  division : Nat
  total_time : Nat
  num_channels : Nat
  deriving DecidableEq, Repr

/-- The channels that the channel events of a song use. -/
def channels_used (K : kinds_t) (song : song_data_t) : List Nat :=
  ((song.tracks.flatMap (fun t => t.events)).filter
    (fun e => decide (e.type = K.MIDI_CHANNEL_EVENT))).map (fun e => e.channel)

end Round

open Round in
/-- The inner loop of the channel search of `add_round` on one track: `events` is the whole
track, the list argument the events from index `j` on. A match increments the `uint8_t`
`available_channel` and sets `j` back to the start of the track. -/
def find_channel_track (K : kinds_t) (events : List event_t) :
    Nat → List event_t → Nat → Res Nat
  | 0, _, _ => .fuel
  | _ + 1, [], available_channel => .ok available_channel
  | fuel + 1, e :: rest, available_channel =>
    if e.type = K.MIDI_CHANNEL_EVENT ∧ e.channel = available_channel then
      find_channel_track K events fuel events ((available_channel + 1) % 256)
    else
      find_channel_track K events fuel rest available_channel

open Round in
/-- The outer loop of the channel search of `add_round` over the tracks. -/
def find_channel (K : kinds_t) (fuel : Nat) : List track_t → Nat → Res Nat
  | [], available_channel => .ok available_channel
  | t :: ts, available_channel =>
    match find_channel_track K t.events fuel t.events available_channel with
    | .ok a => find_channel K fuel ts a
    | .fuel => .fuel
    | .assertFail => .assertFail
    | .shortRead => .shortRead

open Round in
/-- The four loops of `add_round` over the events of the new track, one after the other:
octave, instrument, channel, delay. `delta_time` is a `uint32_t`. -/
def round_events (K : kinds_t) (octave_diff : Int) (delay instrument available_channel : Nat)
    (events : List event_t) : List event_t :=
  let e1 := events.map (fun e =>
    if e.type = K.NOTE_EVENT then { e with octave := e.octave + octave_diff } else e)
  let e2 := e1.map (fun e =>
    if e.type = K.MIDI_PROGRAM_CHANGE_EVENT then { e with program := instrument } else e)
  let e3 := e2.map (fun e =>
    if e.type = K.MIDI_CHANNEL_EVENT then { e with channel := available_channel } else e)
  e3.map (fun e => { e with delta_time := (e.delta_time + delay) % 2 ^ 32 })

open Round in
/-- Source `add_round`: the song when the function ends or stops, and how it ended. The three
`assert`s come before any write. -/
def add_round (K : kinds_t) (fuel : Nat) (song : song_data_t) (track_index : Int)
    (octave_diff : Int) (delay : Nat) (instrument : Nat) : song_data_t × Res Unit :=
  if ¬ (track_index ≥ 0 ∧ track_index < (song.tracks.length : Int)) then (song, .assertFail)
  else if ¬ (song.format ≠ 2) then (song, .assertFail)
  else if ¬ (song.num_channels < 16) then (song, .assertFail)
  else
    match find_channel K fuel song.tracks 0 with
    | .ok available_channel =>
      match song.tracks.get? track_index.toNat with
      | none => (song, .assertFail)
      | some original_track =>
        let new_track : track_t :=
          { original_track with
            events := round_events K octave_diff delay instrument available_channel
              original_track.events }
        let tracks1 := song.tracks ++ [new_track]
        ({ tracks := tracks1,
           format := if tracks1.length > 1 then 1 else 0,
           division := original_track.division,
           total_time := song.total_time + new_track.length,
           num_channels := song.num_channels + 1 }, .ok ())
    | .fuel => (song, .fuel)
    | .assertFail => (song, .assertFail)
    | .shortRead => (song, .shortRead)

/-- The song of two tracks used to exercise `add_round`: the first track has two channel events
with delta-times 10 and 20. -/
def round_song : Round.song_data_t :=
  ⟨[⟨[⟨3, 10, 1, 0, 4⟩, ⟨3, 20, 1, 0, 4⟩], 8, 96⟩, ⟨[⟨3, 0, 0, 0, 4⟩], 4, 96⟩], 1, 96, 12, 2⟩

/-- The song `round_song` after `add_round` on its first track with delay 5 and instrument 7. -/
def round_song_after : Round.song_data_t :=
  ⟨[⟨[⟨3, 10, 1, 0, 4⟩, ⟨3, 20, 1, 0, 4⟩], 8, 96⟩, ⟨[⟨3, 0, 0, 0, 4⟩], 4, 96⟩,
    ⟨[⟨3, 15, 1, 0, 4⟩, ⟨3, 25, 1, 0, 4⟩], 8, 96⟩], 1, 96, 20, 3⟩

/-! ## Song library (`tree_insert`, library.c 32-51; `traverse_in_order` 135-142) -/

namespace Library

/-- The result codes of `library.h`, which is not in the source. -/
structure codes_t where
  INSERT_SUCCESS : Int
  DUPLICATE_SONG : Int
  SONG_NOT_FOUND : Int
  DELETE_SUCCESS : Int

/-- The song a tree node points to, with the two name fields the source reads from it. -/
structure song_t where
  name : String
  song_name : String
  deriving DecidableEq, Repr

/-- A pointer to a tree node: `null`, or a node with its own `song_name`, its song and its two
children. -/
inductive tree_node_t where
  | null : tree_node_t
  | node (song_name : String) (song : song_t) (left_child right_child : tree_node_t) :
      tree_node_t
  deriving DecidableEq, Repr

/-- A fresh node with no children. -/
def leaf (song_name : String) (song : song_t) : tree_node_t :=
  .node song_name song .null .null

end Library

/-- C `strcmp` on names: negative, zero or positive. -/
def strcmp (a b : String) : Int :=
  if a < b then -1 else if a = b then 0 else 1

open Library in
/-- Source `tree_insert`, for a `node` that is not `NULL`: the tree after the call and the
returned code. `name`, `song`, `l` and `r` are the node's `song_name`, song and children. -/
def tree_insert (C : codes_t) (root : tree_node_t) (name : String) (song : song_t)
    (l r : tree_node_t) : tree_node_t × Int :=
  match root with
  | .null => (.node name song l r, C.INSERT_SUCCESS)
  | .node root_name root_song left_child right_child =>
    let cmp := strcmp name root_name
    if cmp = 0 then (.node root_name root_song left_child right_child, C.DUPLICATE_SONG)
    else if cmp < 0 then
      let s := tree_insert C left_child name song l r
      (.node root_name root_song s.1 right_child, s.2)
    else
      let s := tree_insert C right_child name song l r
      (.node root_name root_song left_child s.1, s.2)

open Library in
/-- Source `traverse_in_order`: `func` is called on each node with `data`, which it may change;
the result is `data` after the traversal. -/
def traverse_in_order {δ : Type} (root : tree_node_t) (data : δ)
    (func : tree_node_t → δ → δ) : δ :=
  match root with
  | .null => data
  | .node song_name song left_child right_child =>
    let d1 := traverse_in_order left_child data func
    let d2 := func (.node song_name song left_child right_child) d1
    traverse_in_order right_child d2 func

open Library in
/-- The visitor that appends the `song_name` of the node to the list in `data`. -/
def collect_name (node : tree_node_t) (data : List String) : List String :=
  match node with
  | .null => data
  | .node song_name _ _ _ => data ++ [song_name]

open Library in
/-- The in-order key sequence of a tree: the names `traverse_in_order` visits. -/
def in_order_names (root : tree_node_t) : List String :=
  traverse_in_order root [] collect_name

open Library in
/-- The tree built from the empty tree by inserting fresh nodes with the given names in order. -/
def build_tree (C : codes_t) (names : List String) : tree_node_t :=
  names.foldl (fun t n => (tree_insert C t n ⟨n, n⟩ .null .null).1) .null

/-! ## Removal from the library (`find_parent_pointer` 19-30, `remove_song_from_tree` 52-124,
`print_node` 163-165) and `change_event_instrument` (alterations.c 60-68) -/

namespace Library

/-- Number of nodes of a tree. -/
def tree_size : tree_node_t → Nat
  | .null => 0
  | .node _ _ l r => tree_size l + tree_size r + 1

/-- The node that the slot reached from the root slot by `path` holds; `false` is
`left_child`, `true` is `right_child`. A `tree_node_t **` into the tree is such a path. -/
def subtree_at : tree_node_t → List Bool → tree_node_t
  | t, [] => t
  | .null, _ :: _ => .null
  | .node _ _ l _, false :: p => subtree_at l p
  | .node _ _ _ r, true :: p => subtree_at r p

/-- The tree after the slot reached by `path` has been given the node `new`. -/
def replace_at : tree_node_t → List Bool → tree_node_t → tree_node_t
  | _, [], new => new
  | .null, _ :: _, _ => .null
  | .node k s l r, false :: p, new => .node k s (replace_at l p new) r
  | .node k s l r, true :: p, new => .node k s l (replace_at r p new)

/-- Whether a node pointer is not `NULL` and `strcmp(song_name, node->song->name) == 0`. -/
def name_matches (song_name : String) (node : tree_node_t) : Bool :=
  match node with
  | .null => false
  | .node _ song _ _ => decide (strcmp song_name song.name = 0)

/-- Modelled from the spec: `get_in_order_successor` is not in the source; by §4.5 the in-order
successor is the leftmost node of the right subtree. This is the song of the leftmost node of the
tree whose root has song `s` and left child `l`. -/
def successor_song (s : song_t) (l : tree_node_t) : song_t :=
  match l with
  | .null => s
  | .node _ s1 l1 _ => successor_song s1 l1

/-- Modelled from the spec: the tree after the song of its leftmost node (the in-order successor
of §4.5, when the tree is a right subtree) has been set to `temp`. -/
def set_successor_song (temp : song_t) : tree_node_t → tree_node_t
  | .null => .null
  | .node k _ .null r => .node k temp .null r
  | .node k s (.node lk ls ll lr) r => .node k s (set_successor_song temp (.node lk ls ll lr)) r

end Library

open Library in
/-- Source `find_parent_pointer`: the returned `tree_node_t **` as a path from the root slot,
`none` for `NULL`. -/
def find_parent_pointer (root : tree_node_t) (song_name : String) : Option (List Bool) :=
  match root with
  | .null => some []
  | .node _ song left_child right_child =>
    if strcmp song.song_name song_name = 0 then some []
    else
      match find_parent_pointer left_child song_name with
      | some p => some (false :: p)
      | none => (find_parent_pointer right_child song_name).map (fun p => true :: p)

open Library in
/-- The removal of `node_to_remove` from the slot that holds it, which `remove_song_from_tree`
writes out twice (lines 60-77 for the root, lines 97-123 for a child): what the slot holds
afterwards and the returned code. `recur` is the recursive call. -/
def remove_node (C : codes_t) (recur : tree_node_t → String → Res (tree_node_t × Int))
    (node_to_remove : tree_node_t) : Res (tree_node_t × Int) :=
  match node_to_remove with
  | .null => .ok (.null, C.SONG_NOT_FOUND)
  | .node _ _ .null right_child => .ok (right_child, C.DELETE_SUCCESS)
  | .node _ _ (.node lk ls ll lr) .null => .ok (.node lk ls ll lr, C.DELETE_SUCCESS)
  | .node k temp (.node lk ls ll lr) (.node rk rs rl rr) =>
    let in_order_successor_song := successor_song rs rl
    let right1 := set_successor_song temp (.node rk rs rl rr)
    match recur right1 temp.name with
    | .ok (right2, code) =>
      .ok (.node k in_order_successor_song (.node lk ls ll lr) right2, code)
    | .fuel => .fuel
    | .assertFail => .assertFail
    | .shortRead => .shortRead

open Library in
/-- Source `remove_song_from_tree`: the tree after the call and the returned code. The fuel
bounds the depth of the recursion, which always goes into a right subtree. -/
def remove_song_from_tree (C : codes_t) : Nat → tree_node_t → String → Res (tree_node_t × Int)
  | 0, _, _ => .fuel
  | _ + 1, .null, _ => .ok (.null, C.SONG_NOT_FOUND)
  | fuel + 1, .node k song left_child right_child, song_name =>
    if strcmp song_name song.name = 0 then
      remove_node C (remove_song_from_tree C fuel) (.node k song left_child right_child)
    else
      match find_parent_pointer (.node k song left_child right_child) song_name with
      | none => .ok (.node k song left_child right_child, C.SONG_NOT_FOUND)
      | some parent_ptr =>
        match subtree_at (.node k song left_child right_child) parent_ptr with
        | .null => .ok (.node k song left_child right_child, C.SONG_NOT_FOUND)
        | .node pk ps pl pr =>
          if name_matches song_name pl then
            match remove_node C (remove_song_from_tree C fuel) pl with
            | .ok (pl1, code) =>
              .ok (replace_at (.node k song left_child right_child) parent_ptr
                    (.node pk ps pl1 pr), code)
            | .fuel => .fuel
            | .assertFail => .assertFail
            | .shortRead => .shortRead
          else if name_matches song_name pr then
            match remove_node C (remove_song_from_tree C fuel) pr with
            | .ok (pr1, code) =>
              .ok (replace_at (.node k song left_child right_child) parent_ptr
                    (.node pk ps pl pr1), code)
            | .fuel => .fuel
            | .assertFail => .assertFail
            | .shortRead => .shortRead
          else .ok (.node k song left_child right_child, C.SONG_NOT_FOUND)

open Library in
/-- Source `print_node` as a visitor of `traverse_in_order`: the output gets the line
`node->song->song_name`. -/
def print_node (node : tree_node_t) (fp : List String) : List String :=
  match node with
  | .null => fp
  | .node _ song _ _ => fp ++ [song.song_name]

open Library in
/-- The names of the songs that `traverse_in_order` visits, as `print_node` prints them. -/
def in_order_song_names (root : tree_node_t) : List String :=
  traverse_in_order root [] print_node

open Alter in
/-- Source `change_event_instrument`. `K.PROGRAM_CHANGE` is a macro the source does not define;
`remapping p` is the entry `remapping[p]`. -/
def change_event_instrument (K : kinds_t) (remapping : Nat → Int) (event : event_t) :
    event_t × Int :=
  if event.type ≠ K.PROGRAM_CHANGE then (event, 0)
  else
    let old_instrument := event.data.getD 0 0
    let new_instrument : Int := remapping old_instrument
    ({ event with data := event.data.set 0 (to_u8 new_instrument) }, 1)

open Library in
/-- The trees that a sequence of `tree_insert` calls with fresh childless nodes and of
`remove_song_from_tree` calls produces from the empty tree, whatever each call returns. -/
inductive Reachable (C : codes_t) : tree_node_t → Prop where
  | empty : Reachable C .null
  | insert (t : tree_node_t) (name : String) (song : song_t) :
      Reachable C t → Reachable C (tree_insert C t name song .null .null).1
  | remove (t t1 : tree_node_t) (fuel : Nat) (song_name : String) (code : Int) :
      Reachable C t → remove_song_from_tree C fuel t song_name = .ok (t1, code) →
      Reachable C t1

/-- A song of format 1 with one track whose sixteen channel events (type 3) use the channels
0 to 15, and the counter `num_channels` at 1. -/
def song_16_channels : Round.song_data_t :=
  ⟨[⟨(List.range 16).map (fun c => ⟨3, 0, c, 0, 4⟩), 64, 96⟩], 1, 96, 64, 1⟩

/-! ## Single-precision arithmetic of `change_event_time` -/

/-- A finite non-negative `float`: the value `mant * 2 ^ exp`. A `float` has `mant` below
`2 ^ 24`; 2.0 is `⟨1, 1⟩` and 1.5 is `⟨3, -1⟩`. -/
structure float_t where
  mant : Nat
  exp : Int
  deriving DecidableEq, Repr

/-- The number of binary digits that `n` has above the 24 a `float` keeps, found by halving; 64
halvings are enough for every `n` below `2 ^ 88`. -/
def spare_bits : Nat → Nat → Nat
  | 0, _ => 0
  | fuel + 1, n => if n < 2 ^ 24 then 0 else spare_bits fuel (n / 2) + 1

/-- The value `n * 2 ^ e` rounded to 24 significant bits, to nearest and ties to even: the
rounding of IEEE-754 single precision. Below the normal range a `float` keeps fewer bits and above
it there is infinity; both differ from this only for values below 1 or above `2 ^ 32`, which the
conversion to `uint32_t` treats alike. -/
def round_f32 (n : Nat) (e : Int) : float_t :=
  let s := spare_bits 64 n
  let q := n / 2 ^ s
  let r := n % 2 ^ s
  if 2 * r < 2 ^ s then ⟨q, e + s⟩
  else if 2 * r = 2 ^ s ∧ q % 2 = 0 then ⟨q, e + s⟩
  else ⟨q + 1, e + s⟩

/-- Conversion of a `uint32_t` to `float`, which the product `*multiplier * old_delta_time`
applies to its second operand. -/
def u32_to_f32 (d : Nat) : float_t :=
  round_f32 d 0

/-- The product of two `float`s, computed in single precision. -/
def f32_mul (a b : float_t) : float_t :=
  round_f32 (a.mant * b.mant) (a.exp + b.exp)

/-- Conversion of a `float` to `uint32_t`: the value truncated toward zero; `none` when that does
not fit in 32 bits, where C leaves the conversion undefined. -/
def f32_to_u32 (a : float_t) : Option Nat :=
  let v := if 0 ≤ a.exp then a.mant * 2 ^ a.exp.toNat else a.mant / 2 ^ (-a.exp).toNat
  if v < 2 ^ 32 then some v else none

/-- The C expression `(uint32_t) (*multiplier * old_delta_time)` of `change_event_time`. -/
def scaled_f32 (multiplier : float_t) (old_delta_time : Nat) : Option Nat :=
  f32_to_u32 (f32_mul multiplier (u32_to_f32 old_delta_time))

open Alter in
/-- Source `change_event_time` with its cast expression computed in single precision; `none`
when the conversion to `uint32_t` is undefined. -/
def change_event_time_f32 (multiplier : float_t) (event : event_t) : Option (event_t × Int) :=
  (scaled_f32 multiplier event.delta_time).map (fun v => change_event_time (fun _ => v) event)

/-- The claim's `trunc(m * d)` in exact arithmetic, for the multiplier `m = mant * 2 ^ exp`. -/
def trunc_mul (m : float_t) (d : Nat) : Nat :=
  if 0 ≤ m.exp then m.mant * d * 2 ^ m.exp.toNat else m.mant * d / 2 ^ (-m.exp).toNat

/-- The mapping that sends program 5 to 300 and leaves every other program alone. -/
def mapping_5_to_300 (p : Nat) : Int := if p = 5 then 300 else -1

/-! # Theorems -/

/-! ## Outcome sequencing -/

@[simp] theorem Res.ok_bind {α β : Type} (a : α) (f : α → Res β) :
    (Res.ok a >>= f) = f a := rfl

@[simp] theorem Res.fuel_bind {α β : Type} (f : α → Res β) :
    ((Res.fuel : Res α) >>= f) = Res.fuel := rfl

@[simp] theorem Res.assertFail_bind {α β : Type} (f : α → Res β) :
    ((Res.assertFail : Res α) >>= f) = Res.assertFail := rfl

@[simp] theorem Res.shortRead_bind {α β : Type} (f : α → Res β) :
    ((Res.shortRead : Res α) >>= f) = Res.shortRead := rfl

@[simp] theorem Res.pure_eq {α : Type} (a : α) : (pure a : Res α) = Res.ok a := rfl

/-! ## The VLQ loop -/

theorem to_u8_fgetc_cons (b : Nat) (rest : Stream) :
    to_u8 (fgetc (b :: rest)).1 = b % 256 := by
  simp only [fgetc, to_u8]
  omega

theorem fgetc_cons_snd (b : Nat) (rest : Stream) : (fgetc (b :: rest)).2 = rest := rfl

theorem to_u8_fgetc_nil : to_u8 (fgetc []).1 = 255 := by
  decide

theorem low7_eq (b : Nat) : (b % 256) &&& 0x7F = b % 128 := by
  have h : (0x7F : Nat) = 2 ^ 7 - 1 := by norm_num
  rw [h, Nat.and_pow_two_sub_one_eq_mod]
  omega

theorem high_bit_set (b : Nat) (h1 : 128 ≤ b % 256) : (b % 256) &&& 0x80 ≠ 0 := by
  have hb : b % 256 < 256 := Nat.mod_lt _ (by norm_num)
  generalize b % 256 = c at h1 hb
  interval_cases c <;> decide

theorem high_bit_clear (b : Nat) (h1 : b % 256 < 128) : (b % 256) &&& 0x80 = 0 := by
  generalize b % 256 = c at h1
  interval_cases c <;> decide

theorem accumulate_eq (result b : Nat) :
    ((result <<< 7) % 2 ^ 32) ||| ((b % 256) &&& 0x7F) = (result * 128 + b % 128) % 2 ^ 32 := by
  rw [low7_eq, Nat.shiftLeft_eq]
  have h1 : result * 2 ^ 7 % 2 ^ 32 = 2 ^ 7 * (result % 2 ^ 25) := by omega
  have h2 : b % 128 < 2 ^ 7 := Nat.mod_lt _ (by norm_num)
  rw [h1, ← Nat.mul_add_lt_is_or h2]
  omega

/-- One turn of the loop on a byte with the high bit set. -/
theorem parse_var_len_loop_hi (fuel result b : Nat) (rest : Stream) (hb : 128 ≤ b % 256) :
    parse_var_len_loop (fuel + 1) result (b :: rest) =
      parse_var_len_loop fuel ((result * 128 + b % 128) % 2 ^ 32) rest := by
  rw [parse_var_len_loop]
  simp only [to_u8_fgetc_cons, accumulate_eq]
  rw [if_pos (high_bit_set b hb)]
  rfl

/-- The last turn of the loop, on a byte with the high bit clear. -/
theorem parse_var_len_loop_lo (fuel result b : Nat) (rest : Stream) (hb : b % 256 < 128) :
    parse_var_len_loop (fuel + 1) result (b :: rest) =
      .ok ((result * 128 + b % 128) % 2 ^ 32, rest) := by
  rw [parse_var_len_loop]
  simp only [to_u8_fgetc_cons, accumulate_eq]
  rw [if_neg (by rw [high_bit_clear b hb]; simp)]
  rfl

/-- One turn of the loop at the end of the file: `EOF` becomes the byte `0xFF`. -/
theorem parse_var_len_loop_eof (fuel result : Nat) :
    parse_var_len_loop (fuel + 1) result [] =
      parse_var_len_loop fuel ((result * 128 + 127) % 2 ^ 32) [] := by
  have h := parse_var_len_loop_hi fuel result 255 [] (by norm_num)
  rw [← h, parse_var_len_loop, parse_var_len_loop]
  rfl

theorem acc7_mod (bytes : List Nat) : ∀ result : Nat,
    acc7 (result % 2 ^ 32) bytes % 2 ^ 32 = acc7 result bytes % 2 ^ 32 := by
  induction bytes with
  | nil => intro result; simp [acc7]
  | cons b bs ih =>
    intro result
    have h1 : acc7 (result % 2 ^ 32) (b :: bs) = acc7 (result % 2 ^ 32 * 128 + b % 128) bs := rfl
    have h2 : acc7 result (b :: bs) = acc7 (result * 128 + b % 128) bs := rfl
    rw [h1, h2, ← ih (result % 2 ^ 32 * 128 + b % 128), ← ih (result * 128 + b % 128)]
    congr 2
    omega

theorem acc7_append (xs ys : List Nat) (result : Nat) :
    acc7 result (xs ++ ys) = acc7 (acc7 result xs) ys := by
  simp [acc7, List.foldl_append]

/-- The loop on `k` bytes with the high bit set followed by one with the high bit clear. -/
theorem parse_var_len_loop_run (hi : List Nat) : ∀ (fuel result lo : Nat) (rest : Stream),
    (∀ b ∈ hi, 128 ≤ b % 256) → lo % 256 < 128 → hi.length < fuel →
    parse_var_len_loop fuel result (hi ++ lo :: rest) =
      .ok (acc7 result (hi ++ [lo]) % 2 ^ 32, rest) := by
  induction hi with
  | nil =>
    intro fuel result lo rest _ hlo hfuel
    obtain ⟨f, rfl⟩ : ∃ f, fuel = f + 1 := ⟨fuel - 1, by simp at hfuel; omega⟩
    simpa [acc7] using parse_var_len_loop_lo f result lo rest hlo
  | cons b bs ih =>
    intro fuel result lo rest hhi hlo hfuel
    obtain ⟨f, rfl⟩ : ∃ f, fuel = f + 1 := ⟨fuel - 1, by simp at hfuel; omega⟩
    have hb : 128 ≤ b % 256 := hhi b (by simp)
    have hbs : ∀ c ∈ bs, 128 ≤ c % 256 := fun c hc => hhi c (by simp [hc])
    have hlen : bs.length < f := by simp at hfuel; omega
    rw [List.cons_append, parse_var_len_loop_hi f result b _ hb, ih f _ lo rest hbs hlo hlen]
    have h2 : acc7 result (b :: bs ++ [lo]) = acc7 (result * 128 + b % 128) (bs ++ [lo]) := rfl
    rw [h2, acc7_mod]

/-- On a stream in which every byte has the high bit set the loop never ends. -/
theorem parse_var_len_loop_truncated (fuel : Nat) : ∀ (result : Nat) (fp : Stream),
    (∀ b ∈ fp, 128 ≤ b % 256) → parse_var_len_loop fuel result fp = .fuel := by
  induction fuel with
  | zero => intro result fp _; rfl
  | succ f ih =>
    intro result fp h
    cases fp with
    | nil => rw [parse_var_len_loop_eof]; exact ih _ [] (by simp)
    | cons b bs =>
      rw [parse_var_len_loop_hi f result b bs (h b (by simp))]
      exact ih _ bs (fun c hc => h c (by simp [hc]))

/-! ## C1 -/

/-- C1: on a stream that starts with `k` bytes whose high bit is set followed by one byte whose
high bit is clear, `parse_var_len` returns (with any loop budget above `k`) the concatenation of
the low 7 bits of those bytes, first byte most significant, reduced modulo `2^32`, and leaves
exactly the bytes after those `k+1`. -/
theorem parse_var_len_decodes (hi : List Nat) (lo : Nat) (rest : Stream) (fuel : Nat)
    (hhi : ∀ b ∈ hi, 128 ≤ b ∧ b < 256) (hlo : lo < 128) (hfuel : hi.length < fuel) :
    parse_var_len fuel (hi ++ lo :: rest) = .ok (concat7 (hi ++ [lo]) % 2 ^ 32, rest) ∧
    consumed (hi ++ lo :: rest) rest = hi.length + 1 := by
  constructor
  · have h := parse_var_len_loop_run hi fuel 0 lo rest
      (fun b hb => by have := hhi b hb; omega) (by omega) hfuel
    simpa [parse_var_len, acc7, concat7] using h
  · simp only [consumed, List.length_append, List.length_cons]
    omega

/-- Witness for C1: the two-byte quantity `0x81 0x00` followed by the byte `5`. -/
theorem parse_var_len_decodes_witness :
    parse_var_len 2 ([0x81] ++ 0x00 :: [5]) = .ok (concat7 ([0x81] ++ [0x00]) % 2 ^ 32, [5]) ∧
    consumed ([0x81] ++ 0x00 :: [5]) [5] = [0x81].length + 1 :=
  parse_var_len_decodes [0x81] 0x00 [5] 2 (by decide) (by decide) (by decide)

/-! ## C2 -/

theorem encode_hi_high (k : Nat) : ∀ n : Nat, ∀ b ∈ encode_hi k n, 128 ≤ b % 256 := by
  induction k with
  | zero => intro n b hb; simp [encode_hi] at hb
  | succ k ih =>
    intro n b hb
    rw [encode_hi] at hb
    split at hb
    · simp at hb
    · rcases List.mem_append.mp hb with h | h
      · exact ih _ b h
      · simp only [List.mem_singleton] at h
        omega

theorem encode_hi_acc7 (k : Nat) : ∀ n : Nat, n < 128 ^ k → acc7 0 (encode_hi k n) = n := by
  induction k with
  | zero => intro n hn; simp at hn; subst hn; rfl
  | succ k ih =>
    intro n hn
    rw [encode_hi]
    split
    · next h => subst h; rfl
    · have h1 : n / 128 < 128 ^ k := by
        rw [Nat.div_lt_iff_lt_mul (by norm_num)]
        rw [pow_succ] at hn
        exact hn
      rw [acc7_append, ih _ h1]
      simp only [acc7, List.foldl_cons, List.foldl_nil]
      omega

theorem encode_hi_length (v : Nat) (hv : v ≤ 0x0FFFFFFF) :
    (encode_hi 4 (v / 128)).length + 1 = encoded_width v := by
  simp only [encode_hi, encoded_width]
  split_ifs <;> simp <;> omega

/-- C2: VLQ round trip. For every `v ≤ 0x0FFFFFFF`, `parse_var_len` on the standard VLQ
encoding of `v` (followed by anything) returns `v`, and the bytes it consumed are exactly
`encoded_width v`, which is between 1 and 4. -/
theorem vlq_round_trip (v : Nat) (rest : Stream) (fuel : Nat)
    (hv : v ≤ 0x0FFFFFFF) (hfuel : 4 ≤ fuel) :
    parse_var_len fuel (encode v ++ rest) = .ok (v, rest) ∧
    consumed (encode v ++ rest) rest = encoded_width v ∧
    1 ≤ encoded_width v ∧ encoded_width v ≤ 4 := by
  have hlen := encode_hi_length v hv
  have hw : 1 ≤ encoded_width v ∧ encoded_width v ≤ 4 := by
    simp only [encoded_width]
    split_ifs <;> omega
  refine ⟨?_, ?_, hw⟩
  · have h := parse_var_len_loop_run (encode_hi 4 (v / 128)) fuel 0 (v % 128) rest
      (encode_hi_high 4 _) (by omega) (by omega)
    have hacc : acc7 0 (encode_hi 4 (v / 128) ++ [v % 128]) = v := by
      rw [acc7_append, encode_hi_acc7 4 (v / 128) (by norm_num; omega)]
      simp only [acc7, List.foldl_cons, List.foldl_nil]
      omega
    rw [hacc] at h
    have hv32 : v % 2 ^ 32 = v := Nat.mod_eq_of_lt (by norm_num; omega)
    rw [hv32] at h
    simpa [parse_var_len, encode] using h
  · simp only [consumed, encode, List.length_append, List.length_cons, List.length_nil]
    omega

/-- Witness for C2: the value 300, encoded as `0x82 0x2C`. -/
theorem vlq_round_trip_witness :
    parse_var_len 4 (encode 300 ++ [7]) = .ok (300, [7]) ∧
    consumed (encode 300 ++ [7]) [7] = encoded_width 300 ∧
    1 ≤ encoded_width 300 ∧ encoded_width 300 ≤ 4 :=
  vlq_round_trip 300 [7] 4 (by decide) (by decide)

/-! ## C3 -/

/-- C3: on a stream that ends before a byte with the high bit clear (the empty stream, and
`0x81 0x80`), `parse_var_len` has not returned after any number of turns of its loop: the `EOF`
of `fgetc` is stored in a `uint8_t` as `0xFF`, whose high bit is set. -/
theorem parse_var_len_truncated_never_returns (fuel : Nat) :
    parse_var_len fuel [] = .fuel ∧ parse_var_len fuel [0x81, 0x80] = .fuel :=
  ⟨parse_var_len_loop_truncated fuel 0 [] (by simp),
   parse_var_len_loop_truncated fuel 0 [0x81, 0x80] (by decide)⟩

/-! ## C4 -/

/-- C4: the header `"MThd"`, length 6, format 1, 2 tracks, division 480, with every field in
big-endian order. On a little-endian host `parse_header` reads the format as `0x0100` and stops
on its assertion; on a big-endian host it stores 1, 2 and 480. A header whose format bytes are
`01 00` (big-endian value 256) is accepted on a little-endian host. -/
theorem parse_header_host_order (song : Track.song_data_t) :
    parse_header true (MThd ++ [0, 0, 0, 6, 0, 1, 0, 2, 1, 0xE0]) song = .assertFail ∧
    parse_header false (MThd ++ [0, 0, 0, 6, 0, 1, 0, 2, 1, 0xE0]) song =
      .ok ({ song with format := 1, num_tracks := 2, division := 480 }, []) ∧
    parse_header true (MThd ++ [0, 0, 0, 6, 1, 0, 2, 0, 0xE0, 1]) song =
      .ok ({ song with format := 1, num_tracks := 2, division := 480 }, []) ∧
    be16 1 0 = 256 :=
  ⟨rfl, rfl, rfl, rfl⟩

/-! ## C5 -/

theorem parse_var_len_small (fuel d : Nat) (rest : Stream) (hd : d < 128) :
    parse_var_len (fuel + 1) (d :: rest) = .ok (d, rest) := by
  have h := parse_var_len_loop_lo fuel 0 d rest (by omega)
  rw [parse_var_len, h]
  congr 2
  omega

theorem get_event_length_var_len_small (d : Nat) (hd : d < 128) :
    get_event_length_var_len d = 1 := by
  simp only [get_event_length_var_len, encoded_width]
  rw [if_pos (by omega)]

/-- At the end of the file `parse_event` does not return: its first read is a VLQ. -/
theorem parse_event_eof (tbl : Nat → Nat) (unwritten fuel : Nat) :
    parse_event tbl unwritten fuel [] = .fuel := by
  have h : parse_var_len fuel [] = .fuel := parse_var_len_loop_truncated fuel 0 [] (by simp)
  simp only [parse_event, read_variable_length, h, Res.fuel_bind]

/-- The note-on `00 90 n 40` as `parse_event` decodes it. -/
theorem parse_event_note_on (unwritten fuel n : Nat) (rest : Stream) (hn : n < 256) :
    parse_event MIDI_TABLE_data_len unwritten (fuel + 1) (0 :: 0x90 :: n :: 0x40 :: rest) =
      .ok (note_on_event unwritten n, rest) := by
  have hn1 : n % 256 = n := Nat.mod_eq_of_lt hn
  simp only [parse_event, read_variable_length, parse_var_len_small fuel 0 _ (by norm_num),
    Res.ok_bind, to_u8_fgetc_cons, fgetc_cons_snd]
  have hc : (144 : Nat) &&& 15 = 0 := by decide
  simp [fread, note_on_event, MIDI_TABLE_data_len, hn1, hc]

/-- A meta event `d FF m 00` with an empty payload as `parse_event` decodes it. -/
theorem parse_event_empty_meta (tbl : Nat → Nat) (unwritten fuel d m : Nat) (rest : Stream)
    (hd : d < 128) (hm : m < 256) :
    parse_event tbl unwritten (fuel + 1) (d :: 0xFF :: m :: 0 :: rest) =
      .ok (empty_meta_event unwritten d m, rest) := by
  have hm1 : m % 256 = m := Nat.mod_eq_of_lt hm
  have h0 : parse_var_len (fuel + 1) (0 :: rest) = .ok (0, rest) :=
    parse_var_len_small fuel 0 rest (by norm_num)
  simp only [parse_event, read_variable_length, parse_var_len_small fuel d _ hd, Res.ok_bind,
    to_u8_fgetc_cons, fgetc_cons_snd, hm1, h0]
  simp [fread, empty_meta_event]

/-- One turn of the loop of `parse_track` in which `parse_event` returns an event. -/
theorem parse_track_loop_turn (tbl : Nat → Nat) (heap : Nat → Nat) (fuel L br : Nat)
    (track : Track.track_t) (fp fp1 : Stream) (event : Track.event_t) (hbr : br < L)
    (hpe : parse_event tbl (heap 0) fuel fp = .ok (event, fp1)) :
    parse_track_loop tbl heap (fuel + 1) L br track fp =
      parse_track_loop tbl (fun k => heap (k + 1)) fuel L
        ((br + (event.data_len + get_event_length_var_len event.delta_time)) % 2 ^ 32)
        (add_event_to_track track event) fp1 := by
  rw [parse_track_loop, if_pos hbr, hpe]

/-- The loop of `parse_track` once the count has reached the chunk length. -/
theorem parse_track_loop_done (tbl : Nat → Nat) (heap : Nat → Nat) (fuel L br : Nat)
    (track : Track.track_t) (fp : Stream) (hbr : L ≤ br) :
    parse_track_loop tbl heap (fuel + 1) L br track fp = .ok (track, br, fp) := by
  rw [parse_track_loop, if_neg (by omega)]

/-- The loop of `parse_track` when the count is below the chunk length at the end of the file. -/
theorem parse_track_loop_eof (tbl : Nat → Nat) (heap : Nat → Nat) (fuel L br : Nat)
    (track : Track.track_t) (hbr : br < L) :
    parse_track_loop tbl heap fuel L br track [] = .fuel := by
  cases fuel with
  | zero => rfl
  | succ f => rw [parse_track_loop, if_pos hbr, parse_event_eof]

/-- The loop of `parse_track` on two events `e1`, `e2` that fill the stream, with the count
starting at 0. -/
theorem parse_track_loop_two (tbl : Nat → Nat) (heap : Nat → Nat) (fuel L : Nat)
    (fp fp1 : Stream) (e1 e2 : Nat → Track.event_t) (hL : 0 < L)
    (h1 : ∀ u, parse_event tbl u (fuel + 2) fp = .ok (e1 u, fp1))
    (h2 : ∀ u, parse_event tbl u (fuel + 1) fp1 = .ok (e2 u, []))
    (hd1 : ∀ u, (e1 u).data_len = u) (hd2 : ∀ u, (e2 u).data_len = u)
    (hw1 : ∀ u, get_event_length_var_len (e1 u).delta_time = 1)
    (hw2 : ∀ u, get_event_length_var_len (e2 u).delta_time = 1) :
    parse_track_loop tbl heap (fuel + 3) L 0 ⟨[]⟩ fp =
      if L ≤ (heap 0 + 1) % 2 ^ 32 then .ok (⟨[e1 (heap 0)]⟩, (heap 0 + 1) % 2 ^ 32, fp1)
      else if L ≤ ((heap 0 + 1) % 2 ^ 32 + (heap 1 + 1)) % 2 ^ 32 then
        .ok (⟨[e1 (heap 0), e2 (heap 1)]⟩, ((heap 0 + 1) % 2 ^ 32 + (heap 1 + 1)) % 2 ^ 32, [])
      else .fuel := by
  rw [parse_track_loop_turn tbl heap (fuel + 2) L 0 ⟨[]⟩ fp fp1 (e1 (heap 0)) hL (h1 _),
    hd1, hw1, Nat.zero_add]
  by_cases hc1 : L ≤ (heap 0 + 1) % 2 ^ 32
  · rw [if_pos hc1, parse_track_loop_done _ _ _ _ _ _ _ hc1]
    rfl
  · rw [if_neg hc1,
      parse_track_loop_turn tbl _ (fuel + 1) L _ _ fp1 [] (e2 (heap 1)) (by omega) (h2 _),
      hd2, hw2]
    by_cases hc2 : L ≤ ((heap 0 + 1) % 2 ^ 32 + (heap 1 + 1)) % 2 ^ 32
    · rw [if_pos hc2, parse_track_loop_done _ _ _ _ _ _ _ hc2]
      rfl
    · rw [if_neg hc2, parse_track_loop_eof _ _ _ _ _ _ (by omega)]

/-- The eight bytes `"MTrk"` and a big-endian length below 256 at the start of `parse_track`. -/
theorem parse_track_chunk (tbl : Nat → Nat) (heap : Nat → Nat) (fuel L : Nat) (fp : Stream)
    (song : Track.song_data_t) (hL : L < 256) :
    parse_track tbl true 0 heap fuel (MTrk ++ [0, 0, 0, L] ++ fp) song =
      (parse_track_loop tbl heap fuel L 0 ⟨[]⟩ fp).bind
        (fun r => .ok ({ song with track_list := song.track_list ++ [r.1] }, r.2.2)) := by
  have h1 : fread 4 (MTrk ++ [0, 0, 0, L] ++ fp) = .ok (MTrk, [0, 0, 0, L] ++ fp) := by
    simp [fread, MTrk]
  have h2 : fread 4 ([0, 0, 0, L] ++ fp) = .ok ([0, 0, 0, L % 256], fp) := by
    simp [fread]
  have h3 : be32toh true (host_u32 true [0, 0, 0, L % 256]) = L := by
    simp only [be32toh, host_u32, bswap32, if_true]
    omega
  simp only [parse_track, h1, Res.ok_bind, h2, h3]
  simp only [not_true_eq_false, and_self, if_false]
  rfl

/-- C5: the track chunk `"MTrk" 00 00 00 08` that holds the note-on `00 90 3C 40` and the
end-of-track event `00 FF 2F 00`, exactly 8 bytes of event data, with nothing after it. The count
of `parse_track` adds to each event's delta-time width the field `data_len` of the event, which
`parse_event` never wrote (`heap 0` and `heap 1` are what the two blocks held). When the first
block held 7 or more, the loop stops after 4 of the 8 bytes; when the two counts add up to 8 or
more, after both events; otherwise, as with zeroed blocks and also with the lengths 2 and 0 that
`parse_event` stored in the union members, the count is still below 8 after the 8 bytes and
`parse_track` reads on past the chunk, where it never returns. No outcome is a failure. -/
theorem parse_track_count_reads_unwritten_field (heap : Nat → Nat) (fuel : Nat)
    (song : Track.song_data_t) :
    parse_track MIDI_TABLE_data_len true 0 heap (fuel + 3)
        (MTrk ++ [0, 0, 0, 8] ++ [0, 0x90, 0x3C, 0x40, 0, 0xFF, 0x2F, 0]) song =
      if 8 ≤ (heap 0 + 1) % 2 ^ 32 then
        .ok ({ song with track_list := song.track_list ++ [⟨[note_on_event (heap 0) 0x3C]⟩] },
             [0, 0xFF, 0x2F, 0])
      else if 8 ≤ ((heap 0 + 1) % 2 ^ 32 + (heap 1 + 1)) % 2 ^ 32 then
        .ok ({ song with track_list := song.track_list ++
                [⟨[note_on_event (heap 0) 0x3C, empty_meta_event (heap 1) 0 0x2F]⟩] }, [])
      else .fuel := by
  rw [parse_track_chunk _ _ _ 8 _ _ (by norm_num),
    parse_track_loop_two MIDI_TABLE_data_len heap fuel 8 _ [0, 0xFF, 0x2F, 0]
      (fun u => note_on_event u 0x3C) (fun u => empty_meta_event u 0 0x2F) (by norm_num)
      (fun u => parse_event_note_on u (fuel + 1) 0x3C _ (by norm_num))
      (fun u => parse_event_empty_meta _ u fuel 0 0x2F [] (by norm_num) (by norm_num))
      (fun _ => rfl) (fun _ => rfl) (fun _ => rfl) (fun _ => rfl)]
  split_ifs <;> rfl

/-! ## C6 -/

theorem parse_midi_event_switch_type (type type1 status : Nat) (fp : Stream) :
    parse_midi_event_switch type status fp =
      (parse_midi_event_switch type1 status fp).mapOk (with_type type) := by
  simp only [parse_midi_event_switch]
  split_ifs <;>
    (cases fp with
     | nil => rfl
     | cons a t => cases t <;> rfl)

/-- C6 (amended): when the byte at the status position has its high bit clear,
`parse_midi_event` keeps it in the event's `type` field and reads the next byte of the stream as
the status byte. When that next byte has its high bit set, the channel, operation kind and data
bytes are those `parse_midi_event` decodes when handed that byte as the status. -/
theorem parse_midi_event_high_bit_clear (status st : Nat) (rest : Stream)
    (hstatus : status &&& 0x80 = 0) (hst : st < 256) (hhigh : st &&& 0x80 ≠ 0) :
    parse_midi_event (st :: rest) status =
      (parse_midi_event rest st).mapOk (with_type status) := by
  have h256 : st % 256 = st := Nat.mod_eq_of_lt hst
  simp only [parse_midi_event, if_pos hstatus, if_neg hhigh, fread_u8, Res.ok_bind, h256]
  exact parse_midi_event_switch_type status st st rest

/-- Witness for C6 (amended): the byte `0x3C` at the status position, followed by `85 10 20`. -/
theorem parse_midi_event_high_bit_clear_witness :
    parse_midi_event (0x85 :: [0x10, 0x20]) 0x3C =
      (parse_midi_event [0x10, 0x20] 0x85).mapOk (with_type 0x3C) :=
  parse_midi_event_high_bit_clear 0x3C 0x85 [0x10, 0x20] (by decide) (by decide) (by decide)

/-- Counterexample to C6: with `0x3C` read at the status position, `parse_midi_event` reads the
next byte `0x85` as a status byte and returns a note-off on channel 5 whose first data byte is
`0x10`, whatever the previous event was. `parse_event`, which takes the stream alone, decodes the
note-on `00 90 3C 40` and leaves `00 3E 40`; called on that, it decodes `3E` as the status of an
event of type 3 on channel 14 with no data byte, not as the note of a note-on on channel 0, and
leaves `40` unread (the unwritten field `data_len` is taken as 0 here). -/
theorem running_status_not_carried :
    parse_midi_event [0x85, 0x10, 0x20] 0x3C =
      .ok (⟨"Note Off", 0x3C, .note_off 5 0x10 0x20⟩, []) ∧
    parse_event MIDI_TABLE_data_len 0 1 [0, 0x90, 0x3C, 0x40, 0, 0x3E, 0x40] =
      .ok (⟨0, 9, 0, .midi_event ⟨0, 9, 2, [0x3C, 0x40]⟩⟩, [0, 0x3E, 0x40]) ∧
    parse_event MIDI_TABLE_data_len 0 1 [0, 0x3E, 0x40] =
      .ok (⟨0, 3, 0, .midi_event ⟨14, 3, 0, []⟩⟩, [0x40]) := by
  decide

/-! ## C7 -/

/-- C7: `parse_track` reaches `parse_event` only. On an end-of-track event `parse_event` reads a
length after the meta-type like for any other meta event (`00 FF 2F 03 AA BB CC` gives a payload
of 3 bytes), where `parse_meta_event` returns payload length 0 and reads no length. The loop of
`parse_track` does not look at the meta-type: after the end-of-track event `00 FF 2F 00` it goes
on from the count `heap 0 + 1`, with `heap 0` the field `data_len` that `parse_event` left
unwritten. On the chunk `"MTrk" 00 00 00 08` that holds `00 FF 2F 00` and then the note-on
`00 90 3C 40`, the loop stops after the end-of-track event only when that field held 7 or more;
in every other case, a zeroed block and the stored payload length 0 included, the note-on is
decoded and added to the track, and unless the two counts add up to 8 `parse_track` then reads on
past the chunk, where it never returns. -/
theorem parse_track_goes_on_after_end_of_track (heap : Nat → Nat) (fuel : Nat)
    (song : Track.song_data_t) (rest : Stream) :
    parse_event MIDI_TABLE_data_len (heap 0) (fuel + 1) [0, 0xFF, 0x2F, 3, 0xAA, 0xBB, 0xCC] =
      .ok (⟨0, 0xFF, heap 0, .meta_event ⟨0x2F, 3, [0xAA, 0xBB, 0xCC]⟩⟩, []) ∧
    parse_meta_event ⟨0x2F, 0x51, fun _ => -1, fun _ => "", fun _ => 0⟩ fuel
        [0x2F, 3, 0xAA, 0xBB, 0xCC] =
      .ok (⟨0x2F, none, 0, none, none⟩, [3, 0xAA, 0xBB, 0xCC]) ∧
    parse_track_loop MIDI_TABLE_data_len heap (fuel + 2) 8 0 ⟨[]⟩ (0 :: 0xFF :: 0x2F :: 0 :: rest) =
      parse_track_loop MIDI_TABLE_data_len (fun k => heap (k + 1)) (fuel + 1) 8
        ((heap 0 + 1) % 2 ^ 32) ⟨[empty_meta_event (heap 0) 0 0x2F]⟩ rest ∧
    parse_track MIDI_TABLE_data_len true 0 heap (fuel + 3)
        (MTrk ++ [0, 0, 0, 8] ++ [0, 0xFF, 0x2F, 0, 0, 0x90, 0x3C, 0x40]) song =
      if 8 ≤ (heap 0 + 1) % 2 ^ 32 then
        .ok ({ song with track_list := song.track_list ++
                [⟨[empty_meta_event (heap 0) 0 0x2F]⟩] }, [0, 0x90, 0x3C, 0x40])
      else if 8 ≤ ((heap 0 + 1) % 2 ^ 32 + (heap 1 + 1)) % 2 ^ 32 then
        .ok ({ song with track_list := song.track_list ++
                [⟨[empty_meta_event (heap 0) 0 0x2F, note_on_event (heap 1) 0x3C]⟩] }, [])
      else .fuel := by
  refine ⟨?_, ?_, ?_, ?_⟩
  · have h3 : parse_var_len (fuel + 1) [3, 0xAA, 0xBB, 0xCC] = .ok (3, [0xAA, 0xBB, 0xCC]) :=
      parse_var_len_small fuel 3 _ (by norm_num)
    simp only [parse_event, read_variable_length, parse_var_len_small fuel 0 _ (by norm_num),
      Res.ok_bind, to_u8_fgetc_cons, fgetc_cons_snd, h3]
    simp [fread]
  · simp only [parse_meta_event, to_u8_fgetc_cons, fgetc_cons_snd]
    simp
  · rw [parse_track_loop_turn MIDI_TABLE_data_len heap (fuel + 1) 8 0 ⟨[]⟩ _ rest
      (empty_meta_event (heap 0) 0 0x2F) (by norm_num)
      (parse_event_empty_meta _ _ fuel 0 0x2F rest (by norm_num) (by norm_num))]
    have hw : get_event_length_var_len (empty_meta_event (heap 0) 0 0x2F).delta_time = 1 := rfl
    have hd : (empty_meta_event (heap 0) 0 0x2F).data_len = heap 0 := rfl
    rw [hw, hd, Nat.zero_add]
    rfl
  · rw [parse_track_chunk _ _ _ 8 _ _ (by norm_num),
      parse_track_loop_two MIDI_TABLE_data_len heap fuel 8 _ [0, 0x90, 0x3C, 0x40]
        (fun u => empty_meta_event u 0 0x2F) (fun u => note_on_event u 0x3C) (by norm_num)
        (fun u => parse_event_empty_meta _ u (fuel + 1) 0 0x2F _ (by norm_num) (by norm_num))
        (fun u => parse_event_note_on u fuel 0x3C [] (by norm_num))
        (fun _ => rfl) (fun _ => rfl) (fun _ => rfl) (fun _ => rfl)]
    split_ifs <;> rfl

/-! ## C8 -/

theorem parse_midi_event_switch_default (type status : Nat) (fp : Stream)
    (h : status >>> 4 < 8 ∨ 0xF ≤ status >>> 4) :
    parse_midi_event_switch type status fp =
      (fread_u8 fp >>= fun r => .ok (⟨"MIDI Event", type, .unset⟩, r.2.drop r.1)) := by
  simp only [parse_midi_event_switch]
  split_ifs <;> first | omega | rfl

/-- C8 (amended): for a status byte whose opcode nibble is `0xF`, and for a byte with the high
bit clear followed by a byte whose nibble is outside `0x8..0xE`, `parse_midi_event` does not fail:
it reads one length byte `n`, skips the next `n` bytes and returns an event named
`"MIDI Event"` whose `type` is the byte first read and whose data is unset. -/
theorem parse_midi_event_unknown_skips (status st n : Nat) (rest : Stream)
    (hstatus : status < 256) (hn : n < 256) (hst : st < 256) :
    (status >>> 4 = 0xF →
      parse_midi_event (n :: rest) status =
        .ok (⟨"MIDI Event", status, .unset⟩, rest.drop n)) ∧
    (status &&& 0x80 = 0 → (st >>> 4 < 8 ∨ st >>> 4 = 0xF) →
      parse_midi_event (st :: n :: rest) status =
        .ok (⟨"MIDI Event", status, .unset⟩, rest.drop n)) := by
  have hn1 : n % 256 = n := Nat.mod_eq_of_lt hn
  have hst1 : st % 256 = st := Nat.mod_eq_of_lt hst
  constructor
  · intro h
    have hhigh : status &&& 0x80 ≠ 0 := by
      have h1 : 240 ≤ status := by
        rw [Nat.shiftRight_eq_div_pow] at h
        omega
      interval_cases status <;> decide
    rw [parse_midi_event, if_neg hhigh,
      parse_midi_event_switch_default status status _ (by omega)]
    simp [fread_u8, hn1]
  · intro h1 h2
    rw [parse_midi_event, if_pos h1]
    simp only [fread_u8, Res.ok_bind, hst1]
    rw [parse_midi_event_switch_default status st _ (by omega)]
    simp [fread_u8, hn1]

/-- Witness for C8 (amended): status `0xF1` with length byte 2, and `0x3C` followed by `0x40`. -/
theorem parse_midi_event_unknown_skips_witness :
    parse_midi_event (2 :: [0xAA, 0xBB, 0xCC]) 0xF1 =
      .ok (⟨"MIDI Event", 0xF1, .unset⟩, [0xAA, 0xBB, 0xCC].drop 2) ∧
    parse_midi_event (0x40 :: 2 :: [0xAA, 0xBB, 0xCC]) 0x3C =
      .ok (⟨"MIDI Event", 0x3C, .unset⟩, [0xAA, 0xBB, 0xCC].drop 2) :=
  ⟨(parse_midi_event_unknown_skips 0xF1 0x40 2 [0xAA, 0xBB, 0xCC]
      (by decide) (by decide) (by decide)).1 (by decide),
   (parse_midi_event_unknown_skips 0x3C 0x40 2 [0xAA, 0xBB, 0xCC]
      (by decide) (by decide) (by decide)).2 (by decide) (by decide)⟩

/-- Counterexample to C8: for the status byte `0xF1` (nibble `0xF`, not `0xFF`, `0xF0` or
`0xF7`) `parse_midi_event` returns an event after skipping the two bytes its length byte
announces; it does not fail. -/
theorem parse_midi_event_unknown_returns :
    parse_midi_event [2, 0xAA, 0xBB, 0xCC] 0xF1 =
      .ok (⟨"MIDI Event", 0xF1, .unset⟩, [0xCC]) := by
  decide

/-! ## C9 -/

/-- What `change_event_octave` does to a note-bearing event whose shifted note lies in 0..127:
it returns 1 and writes the new note over the old byte masked with `0xF0`. -/
theorem change_event_octave_in_range (K : Alter.kinds_t) (e : Alter.event_t) (b : Nat)
    (rest : List Nat) (d : Int)
    (hty : e.type = K.NOTE_ON ∨ e.type = K.NOTE_OFF ∨ e.type = K.POLY_PRESSURE)
    (hmd : e.midi_data = b :: rest) (hb : b < 128)
    (h0 : 0 ≤ (b : Int) + 12 * d) (h1 : (b : Int) + 12 * d ≤ 127) :
    change_event_octave K e d =
      ({ e with midi_data := ((b &&& 0xF0) ||| ((b : Int) + 12 * d).toNat) % 256 :: rest }, 1) := by
  have hmask : b &&& 0x7F = b := by
    have h : (0x7F : Nat) = 2 ^ 7 - 1 := by norm_num
    rw [h, Nat.and_pow_two_sub_one_eq_mod]
    omega
  have hty1 : ¬ (e.type ≠ K.NOTE_ON ∧ e.type ≠ K.NOTE_OFF ∧ e.type ≠ K.POLY_PRESSURE) := by
    tauto
  have hdiv : Int.tdiv ((b : Int) + d * 12) 12 = ((b : Int) + d * 12) / 12 :=
    Int.tdiv_eq_ediv (by omega) (by norm_num)
  have hmod : Int.tmod (b : Int) 12 = (b : Int) % 12 :=
    Int.tmod_eq_emod (by omega) (by norm_num)
  have hnote : (b : Int) % 12 + ((b : Int) + d * 12) / 12 * 12 = (b : Int) + 12 * d := by omega
  have hoct : ¬ (((b : Int) + d * 12) / 12 < 0 ∨ ((b : Int) + d * 12) / 12 > 10) := by omega
  simp only [change_event_octave, if_neg hty1, hmd, List.getD_cons_zero, hmask, hdiv, hmod,
    if_neg hoct, hnote, List.set_cons_zero]

/-- C9: a note-on with note 60 shifted by one octave. 60 + 12 = 72 lies in 0..127;
`change_event_octave` returns 1 and leaves the byte `(60 & 0xF0) | 72 = 120`, so the note is 120
and not 72. -/
theorem change_event_octave_note_60_up (K : Alter.kinds_t) :
    change_event_octave K ⟨0, K.NOTE_ON, [60, 64], []⟩ 1 =
      (⟨0, K.NOTE_ON, [120, 64], []⟩, 1) ∧
    Alter.event_t.note (change_event_octave K ⟨0, K.NOTE_ON, [60, 64], []⟩ 1).1 = 120 := by
  have h : change_event_octave K ⟨0, K.NOTE_ON, [60, 64], []⟩ 1 =
      (⟨0, K.NOTE_ON, [120, 64], []⟩, 1) := by
    simp only [change_event_octave, ne_eq, not_true_eq_false, false_and, if_false]
    rfl
  rw [h]
  refine ⟨rfl, ?_⟩
  show (120 : Nat) &&& 0x7F = 120
  decide

/-! ## C10 -/

/-- C10: a note-on with note 116 shifted by one octave would be 128, outside 0..127; the
octave test lets octave 10 through, `change_event_octave` writes the byte `0xF0` and returns 1.
A note-on with note 5 shifted down one octave would be -7; the truncating division gives octave
0 and the call returns 1. Note 127 shifted up one octave is refused with 0. -/
theorem change_event_octave_out_of_range (K : Alter.kinds_t) :
    change_event_octave K ⟨0, K.NOTE_ON, [116, 64], []⟩ 1 =
      (⟨0, K.NOTE_ON, [240, 64], []⟩, 1) ∧
    change_event_octave K ⟨0, K.NOTE_ON, [5, 64], []⟩ (-1) =
      (⟨0, K.NOTE_ON, [5, 64], []⟩, 1) ∧
    change_event_octave K ⟨0, K.NOTE_ON, [127, 64], []⟩ 1 =
      (⟨0, K.NOTE_ON, [127, 64], []⟩, 0) := by
  refine ⟨?_, ?_, ?_⟩
  · simp only [change_event_octave, ne_eq, not_true_eq_false, false_and, if_false]
    rfl
  · simp only [change_event_octave, ne_eq, not_true_eq_false, false_and, if_false]
    rfl
  · simp only [change_event_octave, ne_eq, not_true_eq_false, false_and, if_false]
    rfl

/-! ## C11 -/

theorem note_byte_rebuilt (b : Nat) (hb : b < 256) : (b &&& 0xF0 ||| b &&& 0x7F) % 256 = b := by
  interval_cases b <;> rfl

theorem note_value_le (b : Nat) : b &&& 0x7F ≤ 127 := Nat.and_le_right

/-- A shift by 0 octaves leaves an event as it is and returns 1 for a note-bearing event. -/
theorem change_event_octave_zero (K : Alter.kinds_t) (e : Alter.event_t)
    (hb : e.midi_data.getD 0 0 < 256) :
    change_event_octave K e 0 = (e, if Alter.is_note_bearing K e then 1 else 0) := by
  by_cases hty : e.type ≠ K.NOTE_ON ∧ e.type ≠ K.NOTE_OFF ∧ e.type ≠ K.POLY_PRESSURE
  · have hnb : Alter.is_note_bearing K e = false := by
      simp only [Alter.is_note_bearing, decide_eq_false_iff_not]
      tauto
    simp only [change_event_octave, if_pos hty, hnb]
    rfl
  · have hnb : Alter.is_note_bearing K e = true := by
      simp only [Alter.is_note_bearing, decide_eq_true_eq]
      tauto
    have hn := note_value_le (e.midi_data.getD 0 0)
    generalize hnv : e.midi_data.getD 0 0 &&& 0x7F = n at hn
    have hdiv : Int.tdiv ((n : Int) + 0 * 12) 12 = (n : Int) / 12 := by
      rw [Int.tdiv_eq_ediv (by omega) (by norm_num)]
      congr 1
    have hmod : Int.tmod (n : Int) 12 = (n : Int) % 12 :=
      Int.tmod_eq_emod (by omega) (by norm_num)
    have hnote : (n : Int) % 12 + (n : Int) / 12 * 12 = (n : Int) := by omega
    have hoct : ¬ ((n : Int) / 12 < 0 ∨ (n : Int) / 12 > 10) := by omega
    simp only [change_event_octave, if_neg hty, hnv, hdiv, hmod, if_neg hoct, hnote,
      Int.toNat_ofNat, hnb, if_true]
    rw [← hnv]
    cases hmd : e.midi_data with
    | nil => cases e; simp_all
    | cons b rest =>
      rw [hmd] at hb
      simp only [List.getD_cons_zero] at hb ⊢
      rw [note_byte_rebuilt b hb]
      cases e
      simp_all

theorem apply_to_events_events_id (func : Alter.event_t → Alter.event_t × Int)
    (p : Alter.event_t → Bool) (events : List Alter.event_t) :
    ∀ sum : Int, (∀ e ∈ events, func e = (e, if p e then 1 else 0)) →
    apply_to_events_events func events sum = (events, sum + (events.countP p : Nat)) := by
  induction events with
  | nil => intro sum _; simp [apply_to_events_events]
  | cons e es ih =>
    intro sum h
    have he := h e (by simp)
    have hes := ih (sum + (if p e then 1 else 0)) (fun x hx => h x (by simp [hx]))
    simp only [apply_to_events_events, he, hes, List.countP_cons, Prod.mk.injEq, true_and]
    by_cases hp : p e = true
    · simp only [hp, if_true]
      push_cast
      ring
    · simp only [hp, Bool.false_eq_true, if_false]
      push_cast
      ring

theorem apply_to_events_tracks_id (func : Alter.event_t → Alter.event_t × Int)
    (p : Alter.event_t → Bool) (tracks : List Alter.track_t) :
    ∀ sum : Int, (∀ t ∈ tracks, ∀ e ∈ t.events, func e = (e, if p e then 1 else 0)) →
    apply_to_events_tracks func tracks sum =
      (tracks, sum + ((tracks.map (fun t => t.events.countP p)).sum : Nat)) := by
  induction tracks with
  | nil => intro sum _; simp [apply_to_events_tracks]
  | cons t ts ih =>
    intro sum h
    have ht := apply_to_events_events_id func p t.events sum (h t (by simp))
    have hts := ih (sum + (t.events.countP p : Nat)) (fun x hx => h x (by simp [hx]))
    simp only [apply_to_events_tracks, ht, hts, List.map_cons, List.sum_cons]
    refine Prod.ext ?_ ?_
    · simp
    · simp only
      push_cast
      ring

/-- What `change_octave(song, 0)` does on a song whose note bytes are bytes: every event stays
as it is, and the returned sum has 1 for each note-bearing event (note-on, note-off, polyphonic
pressure), since `change_event_octave` returns 1 whenever the new octave is in range. -/
theorem change_octave_zero (K : Alter.kinds_t) (song : Alter.song_data_t)
    (hbytes : ∀ e ∈ Alter.all_events song, e.midi_data.getD 0 0 < 256) :
    change_octave K song 0 =
      (song, ((Alter.count_events (Alter.is_note_bearing K) song : Nat) : Int)) := by
  have h := apply_to_events_tracks_id (fun event => change_event_octave K event 0)
    (Alter.is_note_bearing K) song.tracks 0
    (fun t ht e he => change_event_octave_zero K e
      (hbytes e (by
        simp only [Alter.all_events, List.mem_flatMap]
        exact ⟨t, ht, he⟩)))
  simp only [change_octave, apply_to_events, h, Alter.count_events, zero_add]

/-- C11: for the song whose single event is a note-on with note 0, `change_octave(song, 0)`
leaves the song as it is and returns 1, not 0: `change_event_octave` returns 1 for an event it
rewrote with the value it already had, and `change_octave` hands that sum back as its
`modified_events`. -/
theorem change_octave_zero_returns_one :
    change_octave ⟨9, 8, 10, 12⟩ ⟨⟨96⟩, [⟨[⟨0, 9, [0, 64], []⟩], 4⟩]⟩ 0 =
      (⟨⟨96⟩, [⟨[⟨0, 9, [0, 64], []⟩], 4⟩]⟩, 1) := by
  decide

/-! ## C12 -/

/-- C12: a song whose single event has delta-time `0x08000000`, warped by the multiplier 2.0
(exact in floating point on this value). `warp_time` stores `0x10000000`, above `0x0FFFFFFF`;
`change_event_time` on the same event clamps to `0x0FFFFFFF`. -/
theorem warp_time_does_not_clamp (env : Alter.warp_env_t) :
    (warp_time env (fun x => 2 * (x : Int))
        ⟨⟨96⟩, [⟨[⟨0x08000000, 9, [60, 64], []⟩], 7⟩]⟩).1.tracks.map
      (fun t => t.events.map (fun e => e.delta_time)) = [[0x10000000]] ∧
    0x0FFFFFFF < 0x10000000 ∧
    (change_event_time (fun x => 2 * x) ⟨0x08000000, 9, [60, 64], []⟩).1.delta_time
      = 0x0FFFFFFF := by
  refine ⟨?_, by norm_num, by decide⟩
  simp only [warp_time, warp_time_tracks, warp_time_events, warp_time_lengths, List.map_cons,
    List.map_nil]
  rfl

/-! ## C13 -/

theorem warp_time_events_eq (env : Alter.warp_env_t) (scale : Nat → Int)
    (events : List Alter.event_t) : ∀ diff : Int,
    warp_time_events env scale events diff =
      (events.map (warp_event scale),
       diff + (events.map (fun e =>
         env.get_delta_time_length (to_i32 (to_u32 (scale e.delta_time)))
           - env.get_delta_time_length (to_i32 e.delta_time))).sum) := by
  induction events with
  | nil => intro diff; simp [warp_time_events]
  | cons e es ih =>
    intro diff
    simp only [warp_time_events, ih, List.map_cons, List.sum_cons, warp_event, Prod.mk.injEq,
      true_and]
    ring

theorem warp_time_tracks_eq (env : Alter.warp_env_t) (scale : Nat → Int)
    (tracks : List Alter.track_t) : ∀ diff : Int,
    warp_time_tracks env scale tracks diff =
      (tracks.map (fun t => { t with events := t.events.map (warp_event scale) }),
       diff + delta_width_sum env scale tracks) := by
  induction tracks with
  | nil => intro diff; simp [warp_time_tracks, delta_width_sum]
  | cons t ts ih =>
    intro diff
    simp only [warp_time_tracks, warp_time_events_eq, ih, List.map_cons, Prod.mk.injEq,
      true_and]
    simp only [delta_width_sum, List.flatMap_cons, List.map_append, List.sum_append]
    ring

theorem warp_time_lengths_eq (env : Alter.warp_env_t) (scale : Nat → Int)
    (new_time_division : Int) (tracks : List Alter.track_t) : ∀ diff : Int,
    (warp_time_lengths env new_time_division
        (tracks.map (fun t => { t with events := t.events.map (warp_event scale) })) diff).2 =
      diff + length_width_sum env scale new_time_division tracks := by
  induction tracks with
  | nil => intro diff; simp [warp_time_lengths, length_width_sum]
  | cons t ts ih =>
    intro diff
    simp only [List.map_cons, warp_time_lengths, ih]
    simp only [length_width_sum, List.map_cons, List.sum_cons]
    ring

/-- C13: what `warp_time` returns. To the sum of the delta-time width deltas and the sum of the
track-length width deltas it adds `get_header_length(song->header)` and
`get_tracks_length(song)`; for a song with no tracks it returns just these two lengths. -/
theorem warp_time_return (env : Alter.warp_env_t) (scale : Nat → Int)
    (song : Alter.song_data_t) :
    (warp_time env scale song).2 =
      delta_width_sum env scale song.tracks
        + length_width_sum env scale (scale song.header.time_division) song.tracks
        + env.get_header_length (warp_time env scale song).1.header
        + env.get_tracks_length (warp_time env scale song).1 ∧
    (warp_time env scale ⟨song.header, []⟩).2 =
      env.get_header_length ⟨to_u32 (scale song.header.time_division)⟩
        + env.get_tracks_length ⟨⟨to_u32 (scale song.header.time_division)⟩, []⟩ := by
  constructor
  · simp only [warp_time, warp_time_tracks_eq, warp_time_lengths_eq, zero_add]
  · simp [warp_time, warp_time_tracks, warp_time_lengths]

/-! ## C14 -/

/-- What `change_event_time` does with the value `scaled d` of its cast expression: the
delta-time becomes `min(scaled d, 0x0FFFFFFF)` and the return is the difference of the widths. -/
theorem change_event_time_spec (scaled : Nat → Nat) (event : Alter.event_t) :
    (change_event_time scaled event).1 =
      { event with delta_time := min (scaled event.delta_time) 0x0FFFFFFF } ∧
    (change_event_time scaled event).2 =
      (encoded_width (min (scaled event.delta_time) 0x0FFFFFFF) : Int)
        - (encoded_width event.delta_time : Int) ∧
    1 ≤ encoded_width event.delta_time ∧ encoded_width event.delta_time ≤ 4 ∧
    (change_event_time (fun d => 2 * d) { event with delta_time := 127 }).2 = 1 := by
  have hmin : (if scaled event.delta_time > 0x0FFFFFFF then 0x0FFFFFFF
      else scaled event.delta_time) = min (scaled event.delta_time) 0x0FFFFFFF := by
    rw [Nat.min_def]
    split_ifs <;> omega
  have hw : 1 ≤ encoded_width event.delta_time ∧ encoded_width event.delta_time ≤ 4 := by
    simp only [encoded_width]
    split_ifs <;> omega
  refine ⟨?_, ?_, hw.1, hw.2, ?_⟩
  · simp only [change_event_time, hmin]
    split_ifs with h
    · rfl
    · push_neg at h
      rw [← h]
  · simp only [change_event_time, hmin, count_varlen_bytes]
    split_ifs with h
    · rfl
    · push_neg at h
      rw [← h]
      exact (sub_self _).symm
  · rfl

theorem spare_bits_small (n : Nat) (h : n < 2 ^ 24) : spare_bits 64 n = 0 := by
  show spare_bits (63 + 1) n = 0
  rw [spare_bits, if_pos h]

/-- A value of at most 24 bits is a `float` as it stands. -/
theorem round_f32_exact (n : Nat) (e : Int) (h : n < 2 ^ 24) : round_f32 n e = ⟨n, e⟩ := by
  simp only [round_f32, spare_bits_small n h, pow_zero, Nat.mod_one, Nat.div_one, Nat.mul_zero,
    Nat.lt_one_iff, if_true, Nat.cast_zero, add_zero]

/-- The cast expression when the delta-time and the product have at most 24 bits: single
precision is exact there. -/
theorem scaled_f32_exact (m : float_t) (d : Nat) (hd : d < 2 ^ 24) (hm : m.mant * d < 2 ^ 24)
    (hlt : trunc_mul m d < 2 ^ 32) : scaled_f32 m d = some (trunc_mul m d) := by
  simp only [scaled_f32, u32_to_f32, f32_mul, round_f32_exact d 0 hd, add_zero,
    round_f32_exact (m.mant * d) m.exp hm, f32_to_u32]
  simp only [trunc_mul] at hlt ⊢
  rw [if_pos hlt]

/-- C14 (amended): for every event whose delta-time `d` is below `2 ^ 24` and every multiplier
`m = M * 2 ^ E` with `M * d` below `2 ^ 24` (so that single precision holds `d` and the product
exactly) and `trunc(m * d)` below `2 ^ 32`, `change_event_time` sets the delta-time to
`d' = min(trunc(m * d), 0x0FFFFFFF)` and returns `encoded_width d' - encoded_width d`, with
`encoded_width` between 1 and 4; for `d = 127` and `m = 2.0` it returns +1. -/
theorem change_event_time_f32_spec (m : float_t) (event : Alter.event_t)
    (hd : event.delta_time < 2 ^ 24) (hm : m.mant * event.delta_time < 2 ^ 24)
    (hlt : trunc_mul m event.delta_time < 2 ^ 32) :
    change_event_time_f32 m event =
      some ({ event with delta_time := min (trunc_mul m event.delta_time) 0x0FFFFFFF },
            (encoded_width (min (trunc_mul m event.delta_time) 0x0FFFFFFF) : Int)
              - (encoded_width event.delta_time : Int)) ∧
    1 ≤ encoded_width event.delta_time ∧ encoded_width event.delta_time ≤ 4 ∧
    (change_event_time_f32 ⟨1, 1⟩ { event with delta_time := 127 }).map (fun r => r.2) =
      some 1 := by
  have h := change_event_time_spec (fun _ => trunc_mul m event.delta_time) event
  refine ⟨?_, h.2.2.1, h.2.2.2.1, ?_⟩
  · rw [change_event_time_f32, scaled_f32_exact m event.delta_time hd hm hlt, Option.map_some']
    exact congrArg some (Prod.ext h.1 h.2.1)
  · have hs : scaled_f32 ⟨1, 1⟩ 127 = some 254 := by decide
    simp only [change_event_time_f32, hs, Option.map_some']
    rfl

/-- Witness for C14 (amended): delta-time 127 and the multiplier 2.0. -/
theorem change_event_time_f32_spec_witness :
    change_event_time_f32 ⟨1, 1⟩ ⟨127, 9, [60, 64], []⟩ =
      some ({ (⟨127, 9, [60, 64], []⟩ : Alter.event_t) with
              delta_time := min (trunc_mul ⟨1, 1⟩ 127) 0x0FFFFFFF },
            (encoded_width (min (trunc_mul ⟨1, 1⟩ 127) 0x0FFFFFFF) : Int)
              - (encoded_width 127 : Int)) ∧
    1 ≤ encoded_width 127 ∧ encoded_width 127 ≤ 4 ∧
    (change_event_time_f32 ⟨1, 1⟩
        { (⟨127, 9, [60, 64], []⟩ : Alter.event_t) with delta_time := 127 }).map
      (fun r => r.2) = some 1 :=
  change_event_time_f32_spec ⟨1, 1⟩ ⟨127, 9, [60, 64], []⟩ (by decide) (by decide) (by decide)

/-- Counterexample to C14: the delta-time `2 ^ 24 + 1` and the multiplier 1.0. The conversion of
the delta-time to `float` gives `2 ^ 24`, which `change_event_time` stores, returning 0;
`min(trunc(1.0 * d), 0x0FFFFFFF)` is `2 ^ 24 + 1`. -/
theorem change_event_time_rounds_delta_time :
    change_event_time_f32 ⟨1, 0⟩ ⟨16777217, 9, [60, 64], []⟩ =
      some (⟨16777216, 9, [60, 64], []⟩, 0) ∧
    min (trunc_mul ⟨1, 0⟩ 16777217) 0x0FFFFFFF = 16777217 := by
  decide

/-! ## C15 -/

theorem remap_instruments_events_eq (PC : Nat) (mapping : Nat → Int)
    (events : List Alter.event_t) : ∀ n : Int,
    (∀ e ∈ events, e.type = PC → mapping (e.data.getD 0 0) ≠ -1 →
      0 ≤ mapping (e.data.getD 0 0) ∧ mapping (e.data.getD 0 0) < 256) →
    remap_instruments_events PC mapping events n =
      (events.map (remap_event_spec PC mapping),
       n + (events.countP (is_remapped PC mapping) : Nat)) := by
  induction events with
  | nil => intro n _; simp [remap_instruments_events]
  | cons e es ih =>
    intro n h
    have hes := fun m => ih m (fun x hx => h x (by simp [hx]))
    by_cases hty : e.type = PC
    · by_cases hm : mapping (e.data.getD 0 0) ≠ -1
      · have hr := h e (by simp) hty hm
        have hu8 : to_u8 (mapping (e.data.getD 0 0)) = (mapping (e.data.getD 0 0)).toNat := by
          simp only [to_u8]
          congr 1
          omega
        have hc : is_remapped PC mapping e = true := by
          simp only [is_remapped, decide_eq_true_eq]
          exact ⟨hty, hm⟩
        simp only [remap_instruments_events, if_pos hty, if_pos hm, hes, List.map_cons,
          List.countP_cons, hc, if_true, remap_event_spec, hty, hm, ne_eq, not_false_eq_true,
          and_self, hu8, Prod.mk.injEq, true_and]
        push_cast
        ring
      · have hc : is_remapped PC mapping e = false := by
          simp only [is_remapped, decide_eq_false_iff_not]
          tauto
        simp only [remap_instruments_events, if_pos hty, if_neg hm, hes, List.map_cons,
          List.countP_cons, hc, remap_event_spec, hm, and_false, if_false, Prod.mk.injEq,
          true_and]
        simp
    · have hc : is_remapped PC mapping e = false := by
        simp only [is_remapped, decide_eq_false_iff_not]
        tauto
      simp only [remap_instruments_events, if_neg hty, hes, List.map_cons, List.countP_cons, hc,
        remap_event_spec, hty, false_and, if_false, Prod.mk.injEq, true_and]
      simp

theorem remap_instruments_tracks_eq (PC : Nat) (mapping : Nat → Int)
    (tracks : List Alter.track_t) : ∀ n : Int,
    (∀ t ∈ tracks, ∀ e ∈ t.events, e.type = PC → mapping (e.data.getD 0 0) ≠ -1 →
      0 ≤ mapping (e.data.getD 0 0) ∧ mapping (e.data.getD 0 0) < 256) →
    remap_instruments_tracks PC mapping tracks n =
      (tracks.map (fun t => { t with events := t.events.map (remap_event_spec PC mapping) }),
       n + ((tracks.map (fun t => t.events.countP (is_remapped PC mapping))).sum : Nat)) := by
  induction tracks with
  | nil => intro n _; simp [remap_instruments_tracks]
  | cons t ts ih =>
    intro n h
    have ht := remap_instruments_events_eq PC mapping t.events n (h t (by simp))
    have hts := fun m => ih m (fun x hx => h x (by simp [hx]))
    simp only [remap_instruments_tracks, ht, hts, List.map_cons, List.sum_cons, Prod.mk.injEq,
      true_and]
    push_cast
    ring

/-- C15 (amended): for every song and every mapping whose entries are each the sentinel -1 or a
byte value 0 to 255, `remap_instruments` replaces the program byte `p` of each program-change
event by `mapping[p]` exactly when `mapping[p]` is not -1, leaves every other event as it is, and
returns the number of program-change events whose entry is not -1. -/
theorem remap_instruments_spec (PC : Nat) (mapping : Nat → Int) (song : Alter.song_data_t)
    (hmap : ∀ p, mapping p = -1 ∨ (0 ≤ mapping p ∧ mapping p < 256)) :
    remap_instruments PC mapping song =
      (Alter.map_events (remap_event_spec PC mapping) song,
       ((Alter.count_events (is_remapped PC mapping) song : Nat) : Int)) := by
  have h := remap_instruments_tracks_eq PC mapping song.tracks 0
    (fun t _ e _ _ hm => by
      rcases hmap (e.data.getD 0 0) with h1 | h1
      · exact absurd h1 hm
      · exact h1)
  simp only [remap_instruments, h, Alter.map_events, Alter.count_events, zero_add]

/-- Witness for C15 (amended): a track with a program change to 5, a note-on and a program
change to 7. -/
theorem remap_instruments_spec_witness :
    remap_instruments 12 mapping_5_to_40
        ⟨⟨96⟩, [⟨[⟨0, 12, [], [5]⟩, ⟨0, 9, [60, 64], [60, 64]⟩, ⟨0, 12, [], [7]⟩], 9⟩]⟩ =
      (Alter.map_events (remap_event_spec 12 mapping_5_to_40)
        ⟨⟨96⟩, [⟨[⟨0, 12, [], [5]⟩, ⟨0, 9, [60, 64], [60, 64]⟩, ⟨0, 12, [], [7]⟩], 9⟩]⟩,
       ((Alter.count_events (is_remapped 12 mapping_5_to_40)
        ⟨⟨96⟩, [⟨[⟨0, 12, [], [5]⟩, ⟨0, 9, [60, 64], [60, 64]⟩, ⟨0, 12, [], [7]⟩], 9⟩]⟩
          : Nat) : Int)) :=
  remap_instruments_spec 12 mapping_5_to_40
    ⟨⟨96⟩, [⟨[⟨0, 12, [], [5]⟩, ⟨0, 9, [60, 64], [60, 64]⟩, ⟨0, 12, [], [7]⟩], 9⟩]⟩
    (by intro p; simp only [mapping_5_to_40]; split_ifs <;> simp)

/-- Counterexample to C15: a song whose single event is a program change with program 5, and a
mapping whose entry for 5 is 300. `remap_instruments` stores the entry in the `uint8_t` program
byte, which becomes 44 and not `mapping[5]`. -/
theorem remap_instruments_entry_above_byte :
    remap_instruments 12 mapping_5_to_300 ⟨⟨96⟩, [⟨[⟨0, 12, [], [5]⟩], 3⟩]⟩ =
      (⟨⟨96⟩, [⟨[⟨0, 12, [], [44]⟩], 3⟩]⟩, 1) ∧
    mapping_5_to_300 5 = 300 ∧
    Alter.map_events (remap_event_spec 12 mapping_5_to_300) ⟨⟨96⟩, [⟨[⟨0, 12, [], [5]⟩], 3⟩]⟩ =
      ⟨⟨96⟩, [⟨[⟨0, 12, [], [300]⟩], 3⟩]⟩ := by
  decide

/-! ## C16 -/

/-- C16: a song of two tracks, the first with one channel event on channel 1, the second with
one on channel 0. The search of `add_round` passes the first track with candidate 0, moves to
candidate 1 on the second track and never looks at the first track again: the new track gets
channel 1, which the first track uses; the smallest channel no event uses is 2. -/
theorem add_round_channel_in_use (K : Round.kinds_t) :
    add_round K 4
        ⟨[⟨[⟨K.MIDI_CHANNEL_EVENT, 0, 1, 0, 4⟩], 4, 96⟩,
          ⟨[⟨K.MIDI_CHANNEL_EVENT, 0, 0, 0, 4⟩], 4, 96⟩], 1, 96, 8, 2⟩ 0 0 0 0 =
      (⟨[⟨[⟨K.MIDI_CHANNEL_EVENT, 0, 1, 0, 4⟩], 4, 96⟩,
         ⟨[⟨K.MIDI_CHANNEL_EVENT, 0, 0, 0, 4⟩], 4, 96⟩,
         ⟨[⟨K.MIDI_CHANNEL_EVENT, 0, 1, 0, 4⟩], 4, 96⟩], 1, 96, 12, 3⟩, .ok ()) ∧
    Round.channels_used K
        ⟨[⟨[⟨K.MIDI_CHANNEL_EVENT, 0, 1, 0, 4⟩], 4, 96⟩,
          ⟨[⟨K.MIDI_CHANNEL_EVENT, 0, 0, 0, 4⟩], 4, 96⟩], 1, 96, 8, 2⟩ = [1, 0] := by
  constructor
  · simp [add_round, find_channel, find_channel_track, round_events]
  · simp [Round.channels_used]

/-! ## C17, C19: what a successful `add_round` leaves -/

theorem add_round_ok (K : Round.kinds_t) (fuel : Nat) (song song1 : Round.song_data_t)
    (track_index octave_diff : Int) (delay instrument : Nat)
    (h : add_round K fuel song track_index octave_diff delay instrument = (song1, .ok ())) :
    ∃ (available_channel : Nat) (original_track : Round.track_t),
      find_channel K fuel song.tracks 0 = .ok available_channel ∧
      song.tracks.get? track_index.toNat = some original_track ∧
      song.format ≠ 2 ∧ song.num_channels < 16 ∧
      song1 =
        { tracks := song.tracks ++
            [{ original_track with
               events := round_events K octave_diff delay instrument available_channel
                 original_track.events }],
          format := 1,
          division := original_track.division,
          total_time := song.total_time + original_track.length,
          num_channels := song.num_channels + 1 } := by
  unfold add_round at h
  by_cases h1 : track_index ≥ 0 ∧ track_index < (song.tracks.length : Int)
  · rw [if_neg (not_not.mpr h1)] at h
    by_cases h2 : song.format ≠ 2
    · rw [if_neg (not_not.mpr h2)] at h
      by_cases h3 : song.num_channels < 16
      · rw [if_neg (not_not.mpr h3)] at h
        cases hf : find_channel K fuel song.tracks 0 with
        | ok a =>
          rw [hf] at h
          cases hg : song.tracks.get? track_index.toNat with
          | none => rw [hg] at h; simp at h
          | some orig =>
            rw [hg] at h
            simp only [Prod.mk.injEq, and_true] at h
            refine ⟨a, orig, rfl, rfl, h2, h3, ?_⟩
            have hpos : 0 < song.tracks.length := by
              have h4 := h1.2
              omega
            have hlen : ∀ x : Round.track_t, (song.tracks ++ [x]).length > 1 := by
              intro x
              simp only [List.length_append, List.length_singleton]
              omega
            rw [← h, if_pos (hlen _)]
        | fuel => rw [hf] at h; simp at h
        | assertFail => rw [hf] at h; simp at h
        | shortRead => rw [hf] at h; simp at h
      · rw [if_pos h3] at h; simp at h
    · rw [if_pos h2] at h; simp at h
  · rw [if_pos h1] at h; simp at h

theorem round_events_delta (K : Round.kinds_t) (octave_diff : Int)
    (delay instrument available_channel : Nat) (events : List Round.event_t) :
    (round_events K octave_diff delay instrument available_channel events).map
        (fun e => e.delta_time) =
      events.map (fun e => (e.delta_time + delay) % 2 ^ 32) := by
  simp only [round_events, List.map_map]
  apply List.map_congr_left
  intro e _
  simp only [Function.comp]
  split_ifs <;> rfl

/-- The delay loop of `add_round`: when the call succeeds with delay `d`, every event of the new
track, the first and the later ones alike, has the delta-time of the corresponding event of the
copied track plus `d` (as a `uint32_t`). -/
theorem add_round_delays_every_event (K : Round.kinds_t) (fuel : Nat)
    (song song1 : Round.song_data_t) (track_index octave_diff : Int) (delay instrument : Nat)
    (h : add_round K fuel song track_index octave_diff delay instrument = (song1, .ok ())) :
    ∃ original_track new_track : Round.track_t,
      song.tracks.get? track_index.toNat = some original_track ∧
      song1.tracks = song.tracks ++ [new_track] ∧
      new_track.events.map (fun e => e.delta_time) =
        original_track.events.map (fun e => (e.delta_time + delay) % 2 ^ 32) := by
  obtain ⟨a, orig, _, hg, _, _, rfl⟩ := add_round_ok K fuel song song1 track_index octave_diff
    delay instrument h
  exact ⟨orig, _, hg, rfl, round_events_delta K octave_diff delay instrument a orig.events⟩

/-- C17: the copied track of `round_song` has the delta-times 10 and 20 and the delay is 5.
`add_round` succeeds and the new track has the delta-times 15 and 25: the delay went to the
second event as well, which now starts 40 ticks into the track where the copied one starts 30
ticks in, 10 later and not 5. -/
theorem add_round_delays_later_events :
    add_round ⟨1, 2, 3⟩ 10 round_song 0 1 5 7 = (round_song_after, .ok ()) ∧
    (round_song_after.tracks.getD 2 ⟨[], 0, 0⟩).events.map (fun e => e.delta_time) = [15, 25] ∧
    (round_song.tracks.getD 0 ⟨[], 0, 0⟩).events.map (fun e => e.delta_time) = [10, 20] := by
  decide

/-! ## C18 -/

/-- The two guards of `add_round` as the code writes them: when the song's format is 2, or its
counter `num_channels` is 16 or more, `add_round` stops on an assertion and the song is what it
was before the call. -/
theorem add_round_fails (K : Round.kinds_t) (fuel : Nat) (song : Round.song_data_t)
    (track_index octave_diff : Int) (delay instrument : Nat)
    (h : song.format = 2 ∨ 16 ≤ song.num_channels) :
    add_round K fuel song track_index octave_diff delay instrument = (song, .assertFail) ∧
    (add_round K fuel song track_index octave_diff delay instrument).1.tracks.length =
      song.tracks.length := by
  have h1 : add_round K fuel song track_index octave_diff delay instrument =
      (song, .assertFail) := by
    unfold add_round
    by_cases c1 : track_index ≥ 0 ∧ track_index < (song.tracks.length : Int)
    · rw [if_neg (not_not.mpr c1)]
      by_cases c2 : song.format ≠ 2
      · rw [if_neg (not_not.mpr c2)]
        have c3 : ¬ song.num_channels < 16 := by
          rcases h with h | h
          · exact absurd h c2
          · omega
        rw [if_pos c3]
      · rw [if_pos c2]
    · rw [if_pos c1]
  rw [h1]
  exact ⟨rfl, rfl⟩

/-- C18: `song_16_channels` has format 1 and one track whose sixteen channel events use the
channels 0 to 15, all there are. `add_round` does not fail on it: its guard reads the counter
`num_channels` (here 1) and not the events, the search runs through the sixteen channels in use
and comes out with 16, and the song gets a second track whose events are all on channel 16. With
the format set to 2 the same call stops on the assertion and leaves the song as it was. -/
theorem add_round_all_channels_in_use :
    Round.channels_used ⟨1, 2, 3⟩ song_16_channels = List.range 16 ∧
    (add_round ⟨1, 2, 3⟩ 200 song_16_channels 0 0 0 0).2 = .ok () ∧
    (add_round ⟨1, 2, 3⟩ 200 song_16_channels 0 0 0 0).1.tracks.length = 2 ∧
    song_16_channels.tracks.length = 1 ∧
    ((add_round ⟨1, 2, 3⟩ 200 song_16_channels 0 0 0 0).1.tracks.getD 1 ⟨[], 0, 0⟩).events.map
        (fun e => e.channel) = List.replicate 16 16 ∧
    add_round ⟨1, 2, 3⟩ 200 { song_16_channels with format := 2 } 0 0 0 0 =
      ({ song_16_channels with format := 2 }, .assertFail) := by
  decide

/-! ## C19 -/

/-- C19: when `add_round` succeeds, the song has exactly one track more, the new track last;
its format is 1; and its `total_time` is the old one plus the length of the new track. -/
theorem add_round_bookkeeping (K : Round.kinds_t) (fuel : Nat)
    (song song1 : Round.song_data_t) (track_index octave_diff : Int) (delay instrument : Nat)
    (h : add_round K fuel song track_index octave_diff delay instrument = (song1, .ok ())) :
    ∃ new_track : Round.track_t,
      song1.tracks = song.tracks ++ [new_track] ∧
      song1.tracks.length = song.tracks.length + 1 ∧
      song1.format = 1 ∧
      song1.total_time = song.total_time + new_track.length := by
  obtain ⟨a, orig, _, _, _, _, rfl⟩ := add_round_ok K fuel song song1 track_index octave_diff
    delay instrument h
  exact ⟨_, rfl, by simp, rfl, rfl⟩

/-- Witness for C19: `round_song`, first track. -/
theorem add_round_bookkeeping_witness :
    ∃ new_track : Round.track_t,
      round_song_after.tracks = round_song.tracks ++ [new_track] ∧
      round_song_after.tracks.length = round_song.tracks.length + 1 ∧
      round_song_after.format = 1 ∧
      round_song_after.total_time = round_song.total_time + new_track.length :=
  add_round_bookkeeping ⟨1, 2, 3⟩ 10 round_song round_song_after 0 1 5 7 (by decide)

/-! ## C20 -/

theorem strcmp_eq_zero (a b : String) : strcmp a b = 0 ↔ a = b := by
  simp only [strcmp]
  split_ifs with h1 h2
  · simp [ne_of_lt h1]
  · simp [h2]
  · simp [h2]

theorem strcmp_neg (a b : String) : strcmp a b < 0 ↔ a < b := by
  simp only [strcmp]
  split_ifs with h1 h2
  · simp [h1]
  · simp [h1]
  · simp [h1]

theorem traverse_collect (root : Library.tree_node_t) : ∀ acc : List String,
    traverse_in_order root acc collect_name = acc ++ in_order_names root := by
  induction root with
  | null => intro acc; simp [traverse_in_order, in_order_names]
  | node k s l r ihl ihr =>
    intro acc
    simp only [in_order_names, traverse_in_order, collect_name]
    rw [ihl acc, ihr, ihl [], ihr ([] ++ in_order_names l ++ [k])]
    simp

theorem in_order_names_node (k : String) (s : Library.song_t) (l r : Library.tree_node_t) :
    in_order_names (.node k s l r) = in_order_names l ++ k :: in_order_names r := by
  simp only [in_order_names, traverse_in_order, collect_name]
  rw [traverse_collect r, traverse_collect l]
  simp [in_order_names]

theorem orderedInsert_append_of_le (a b : String) (l₁ l₂ : List String) (h : a ≤ b) :
    (l₁ ++ b :: l₂).orderedInsert (· ≤ ·) a = l₁.orderedInsert (· ≤ ·) a ++ b :: l₂ := by
  induction l₁ with
  | nil => simp [List.orderedInsert, h]
  | cons x xs ih =>
    simp only [List.cons_append, List.orderedInsert, List.append_eq]
    split_ifs
    · rfl
    · rw [ih]
      rfl

theorem orderedInsert_append_of_lt (a : String) (l₁ l₂ : List String)
    (h : ∀ x ∈ l₁, x < a) :
    (l₁ ++ l₂).orderedInsert (· ≤ ·) a = l₁ ++ l₂.orderedInsert (· ≤ ·) a := by
  induction l₁ with
  | nil => rfl
  | cons x xs ih =>
    have hx : ¬ a ≤ x := not_le.mpr (h x (by simp))
    simp only [List.cons_append, List.orderedInsert, if_neg hx, List.append_eq]
    rw [ih (fun y hy => h y (by simp [hy]))]

/-- C20: for a tree whose in-order names are strictly ascending and a fresh node whose name is
not among them, `tree_insert` returns `INSERT_SUCCESS` and the in-order names of the resulting
tree are the old ones with the new name inserted at its sorted position. -/
theorem tree_insert_fresh (C : Library.codes_t) (name : String) (song : Library.song_t)
    (root : Library.tree_node_t)
    (hbst : (in_order_names root).Sorted (· < ·)) (hnew : name ∉ in_order_names root) :
    (tree_insert C root name song .null .null).2 = C.INSERT_SUCCESS ∧
    in_order_names (tree_insert C root name song .null .null).1 =
      (in_order_names root).orderedInsert (· ≤ ·) name := by
  induction root with
  | null =>
    simp [tree_insert, in_order_names_node, in_order_names, traverse_in_order, collect_name]
  | node k s l r ihl ihr =>
    rw [in_order_names_node] at hbst hnew
    rw [List.Sorted, List.pairwise_append, List.pairwise_cons] at hbst
    have hsl : (in_order_names l).Sorted (· < ·) := hbst.1
    have hsr : (in_order_names r).Sorted (· < ·) := hbst.2.1.2
    have hlk : ∀ x ∈ in_order_names l, x < k :=
      fun x hx => hbst.2.2 x hx k (by simp)
    have hnl : name ∉ in_order_names l := fun hx => hnew (by simp [hx])
    have hnr : name ∉ in_order_names r := fun hx => hnew (by simp [hx])
    have hnk : name ≠ k := fun hx => hnew (by simp [hx])
    have h0 : ¬ strcmp name k = 0 := by rw [strcmp_eq_zero]; exact hnk
    rw [tree_insert]
    simp only [if_neg h0]
    by_cases hlt : strcmp name k < 0
    · have hlt1 : name < k := (strcmp_neg name k).mp hlt
      obtain ⟨h1, h2⟩ := ihl hsl hnl
      simp only [if_pos hlt, in_order_names_node, h1, h2, true_and]
      rw [orderedInsert_append_of_le name k _ _ (le_of_lt hlt1)]
    · have hgt : k < name := by
        rcases lt_trichotomy name k with h | h | h
        · exact absurd ((strcmp_neg name k).mpr h) hlt
        · exact absurd h hnk
        · exact h
      obtain ⟨h1, h2⟩ := ihr hsr hnr
      simp only [if_neg hlt, in_order_names_node, h1, h2, true_and]
      rw [orderedInsert_append_of_lt name _ _ (fun x hx => lt_trans (hlk x hx) hgt)]
      simp only [List.orderedInsert, if_neg (not_le.mpr hgt)]

theorem build_tree_c_a (C : Library.codes_t) :
    build_tree C ["c", "a"] = .node "c" ⟨"c", "c"⟩ (.node "a" ⟨"a", "a"⟩ .null .null) .null := by
  have h : strcmp "a" "c" = -1 := by
    simp only [strcmp, String.lt_iff_toList_lt]
    decide
  simp [build_tree, tree_insert, h]

/-- Witness for C20: inserting "b" into the tree built from "c" and "a"; also the in-order
names after inserting "c", "a", "b" into the empty tree. -/
theorem tree_insert_fresh_witness :
    ((tree_insert ⟨0, 1, 2, 3⟩ (build_tree ⟨0, 1, 2, 3⟩ ["c", "a"]) "b" ⟨"b", "b"⟩
        .null .null).2 = (⟨0, 1, 2, 3⟩ : Library.codes_t).INSERT_SUCCESS ∧
      in_order_names (tree_insert ⟨0, 1, 2, 3⟩ (build_tree ⟨0, 1, 2, 3⟩ ["c", "a"]) "b"
        ⟨"b", "b"⟩ .null .null).1 =
        (in_order_names (build_tree ⟨0, 1, 2, 3⟩ ["c", "a"])).orderedInsert (· ≤ ·) "b") ∧
    (in_order_names (build_tree ⟨0, 1, 2, 3⟩ ["c", "a"])).orderedInsert (· ≤ ·) "b"
      = ["a", "b", "c"] := by
  have hn : in_order_names (build_tree ⟨0, 1, 2, 3⟩ ["c", "a"]) = ["a", "c"] := by
    rw [build_tree_c_a]
    simp [in_order_names_node, in_order_names, traverse_in_order, collect_name]
  have hac : ("a" : String) < "c" := by rw [String.lt_iff_toList_lt]; decide
  have hab : ("a" : String) < "b" := by rw [String.lt_iff_toList_lt]; decide
  have hbc : ("b" : String) < "c" := by rw [String.lt_iff_toList_lt]; decide
  refine ⟨tree_insert_fresh ⟨0, 1, 2, 3⟩ "b" ⟨"b", "b"⟩ (build_tree ⟨0, 1, 2, 3⟩ ["c", "a"])
    (by rw [hn]; exact List.sorted_cons.mpr ⟨by simpa using hac, List.sorted_singleton _⟩)
    (by rw [hn]; simp), ?_⟩
  rw [hn]
  simp [List.orderedInsert, not_le.mpr hab, le_of_lt hbc]

/-! ## C21 -/

/-- C21: for a tree whose in-order names are strictly ascending and a node whose name is already
among them, `tree_insert` returns `DUPLICATE_SONG` and the tree is what it was. -/
theorem tree_insert_duplicate (C : Library.codes_t) (name : String) (song : Library.song_t)
    (l r : Library.tree_node_t) (root : Library.tree_node_t)
    (hbst : (in_order_names root).Sorted (· < ·)) (hin : name ∈ in_order_names root) :
    tree_insert C root name song l r = (root, C.DUPLICATE_SONG) := by
  induction root with
  | null => simp [in_order_names, traverse_in_order] at hin
  | node k s tl tr ihl ihr =>
    rw [in_order_names_node] at hbst hin
    rw [List.Sorted, List.pairwise_append, List.pairwise_cons] at hbst
    have hsl : (in_order_names tl).Sorted (· < ·) := hbst.1
    have hsr : (in_order_names tr).Sorted (· < ·) := hbst.2.1.2
    have hlk : ∀ x ∈ in_order_names tl, x < k := fun x hx => hbst.2.2 x hx k (by simp)
    have hkr : ∀ x ∈ in_order_names tr, k < x := fun x hx => hbst.2.1.1 x hx
    rw [tree_insert]
    by_cases h0 : strcmp name k = 0
    · simp only [if_pos h0]
    · have hnk : name ≠ k := fun h => h0 ((strcmp_eq_zero name k).mpr h)
      simp only [if_neg h0]
      by_cases hlt : strcmp name k < 0
      · have hlt1 : name < k := (strcmp_neg name k).mp hlt
        have hl : name ∈ in_order_names tl := by
          rcases List.mem_append.mp hin with h | h
          · exact h
          · rcases List.mem_cons.mp h with h | h
            · exact absurd h hnk
            · exact absurd (hkr name h) (not_lt.mpr (le_of_lt hlt1))
        simp only [if_pos hlt, ihl hsl hl]
      · have hgt : k < name := by
          rcases lt_trichotomy name k with h | h | h
          · exact absurd ((strcmp_neg name k).mpr h) hlt
          · exact absurd h hnk
          · exact h
        have hr : name ∈ in_order_names tr := by
          rcases List.mem_append.mp hin with h | h
          · exact absurd (hlk name h) (not_lt.mpr (le_of_lt hgt))
          · rcases List.mem_cons.mp h with h | h
            · exact absurd h hnk
            · exact h
        simp only [if_neg hlt, ihr hsr hr]

/-- Witness for C21: a second node named "a" offered to the tree built from "c" and "a". -/
theorem tree_insert_duplicate_witness :
    tree_insert ⟨0, 1, 2, 3⟩ (build_tree ⟨0, 1, 2, 3⟩ ["c", "a"]) "a" ⟨"a", "a"⟩ .null .null =
      (build_tree ⟨0, 1, 2, 3⟩ ["c", "a"], (⟨0, 1, 2, 3⟩ : Library.codes_t).DUPLICATE_SONG) :=
  tree_insert_duplicate ⟨0, 1, 2, 3⟩ "a" ⟨"a", "a"⟩ .null .null
    (build_tree ⟨0, 1, 2, 3⟩ ["c", "a"])
    (by
      rw [build_tree_c_a]
      simp +decide [in_order_names_node, in_order_names, traverse_in_order, collect_name])
    (by
      rw [build_tree_c_a]
      simp [in_order_names_node, in_order_names, traverse_in_order, collect_name])

/-! ## C22 -/

/-- C22: the tree built from "c", "a", "b" has a node named "a", the left child of the root.
`find_parent_pointer` returns the slot of that node itself, `remove_song_from_tree` looks for
the name among its children, and the call returns `SONG_NOT_FOUND` with the tree as it was. -/
theorem remove_misses_child_of_root (C : Library.codes_t) (fuel : Nat) :
    remove_song_from_tree C (fuel + 1) (build_tree C ["c", "a", "b"]) "a" =
      .ok (build_tree C ["c", "a", "b"], C.SONG_NOT_FOUND) ∧
    find_parent_pointer (build_tree C ["c", "a", "b"]) "a" = some [false] ∧
    in_order_song_names (build_tree C ["c", "a", "b"]) = ["a", "b", "c"] := by
  refine ⟨?_, ?_, ?_⟩
  · simp +decide [build_tree, tree_insert, strcmp_eq_zero, strcmp_neg, remove_song_from_tree,
      find_parent_pointer, Library.subtree_at, Library.name_matches]
  · simp +decide [build_tree, tree_insert, strcmp_eq_zero, strcmp_neg, find_parent_pointer]
  · simp +decide [build_tree, tree_insert, strcmp_eq_zero, strcmp_neg, in_order_song_names,
      traverse_in_order, print_node]

/-! ## C23 -/

/-- C23: the two removals of §8. Removing "a" from the tree built from "c", "a", "b" leaves the
in-order song names "a", "b", "c"; removing "d" from the tree built from "m", "d", "t", "b",
"f", "p", "z" leaves "b", "d", "f", "m", "p", "t", "z". Neither name is removed. -/
theorem remove_keeps_child_names (C : Library.codes_t) (fuel : Nat) :
    (remove_song_from_tree C (fuel + 1) (build_tree C ["c", "a", "b"]) "a").mapOk
        (fun r => in_order_song_names r.1) = .ok ["a", "b", "c"] ∧
    (remove_song_from_tree C (fuel + 1)
        (build_tree C ["m", "d", "t", "b", "f", "p", "z"]) "d").mapOk
        (fun r => in_order_song_names r.1) = .ok ["b", "d", "f", "m", "p", "t", "z"] := by
  constructor
  · simp +decide [build_tree, tree_insert, strcmp_eq_zero, strcmp_neg, remove_song_from_tree,
      find_parent_pointer, Library.subtree_at, Library.name_matches, Res.mapOk,
      in_order_song_names, traverse_in_order, print_node]
  · simp +decide [build_tree, tree_insert, strcmp_eq_zero, strcmp_neg, remove_song_from_tree,
      find_parent_pointer, Library.subtree_at, Library.name_matches, Res.mapOk,
      in_order_song_names, traverse_in_order, print_node]

/-! ## The tree built from "m", "d", "t", "p" -/


theorem build_tree_m_d_t_p (C : Library.codes_t) :
    build_tree C ["m", "d", "t", "p"] =
      .node "m" ⟨"m", "m"⟩ (.node "d" ⟨"d", "d"⟩ .null .null)
        (.node "t" ⟨"t", "t"⟩ (.node "p" ⟨"p", "p"⟩ .null .null) .null) := by
  simp +decide [build_tree, tree_insert, strcmp_eq_zero, strcmp_neg]

theorem remove_m_swaps_then_fails (C : Library.codes_t) (fuel : Nat) :
    remove_song_from_tree C (fuel + 2) (build_tree C ["m", "d", "t", "p"]) "m" =
      .ok (.node "m" ⟨"p", "p"⟩ (.node "d" ⟨"d", "d"⟩ .null .null)
            (.node "t" ⟨"t", "t"⟩ (.node "p" ⟨"m", "m"⟩ .null .null) .null),
           C.SONG_NOT_FOUND) := by
  rw [build_tree_m_d_t_p]
  simp +decide [strcmp_eq_zero, remove_song_from_tree, remove_node, Library.successor_song,
    Library.set_successor_song, find_parent_pointer, Library.subtree_at, Library.name_matches]


/-! ## The `song_name` fields of the nodes under insertion and removal -/

theorem in_order_names_set_successor_song (temp : Library.song_t) (t : Library.tree_node_t) :
    in_order_names (Library.set_successor_song temp t) = in_order_names t := by
  induction t with
  | null => rfl
  | node k s l r ihl _ =>
    cases l with
    | null => simp only [Library.set_successor_song, in_order_names_node]
    | node lk ls ll lr =>
      simp only [Library.set_successor_song, in_order_names_node] at ihl ⊢
      rw [ihl]

theorem in_order_names_null : in_order_names Library.tree_node_t.null = [] := rfl

theorem remove_node_names (C : Library.codes_t)
    (recur : Library.tree_node_t → String → Res (Library.tree_node_t × Int))
    (hrec : ∀ t n t1 code, recur t n = .ok (t1, code) →
      (in_order_names t1).Sublist (in_order_names t))
    (node t1 : Library.tree_node_t) (code : Int)
    (h : remove_node C recur node = .ok (t1, code)) :
    (in_order_names t1).Sublist (in_order_names node) := by
  cases node with
  | null =>
    simp only [remove_node, Res.ok.injEq, Prod.mk.injEq] at h
    rw [← h.1]
  | node k s l r =>
    cases l with
    | null =>
      simp only [remove_node, Res.ok.injEq, Prod.mk.injEq] at h
      rw [← h.1, in_order_names_node, in_order_names_null]
      exact List.sublist_cons_self _ _
    | node lk ls ll lr =>
      cases r with
      | null =>
        simp only [remove_node, Res.ok.injEq, Prod.mk.injEq] at h
        rw [← h.1, in_order_names_node (k := k)]
        exact List.sublist_append_left _ _
      | node rk rs rl rr =>
        simp only [remove_node] at h
        cases hr : recur (Library.set_successor_song s (.node rk rs rl rr)) s.name with
        | ok res =>
          obtain ⟨right2, code2⟩ := res
          rw [hr] at h
          simp only [Res.ok.injEq, Prod.mk.injEq] at h
          have h2 := hrec _ _ _ _ hr
          rw [in_order_names_set_successor_song] at h2
          rw [← h.1, in_order_names_node, in_order_names_node (k := k)]
          exact List.Sublist.append (List.Sublist.refl _) (List.Sublist.cons₂ _ h2)
        | fuel => rw [hr] at h; simp at h
        | assertFail => rw [hr] at h; simp at h
        | shortRead => rw [hr] at h; simp at h

theorem replace_at_names (t : Library.tree_node_t) : ∀ (p : List Bool)
    (new : Library.tree_node_t),
    (in_order_names new).Sublist (in_order_names (Library.subtree_at t p)) →
    (in_order_names (Library.replace_at t p new)).Sublist (in_order_names t) := by
  induction t with
  | null =>
    intro p new h
    cases p with
    | nil => simpa [Library.replace_at, Library.subtree_at] using h
    | cons b p => simp [Library.replace_at]
  | node k s l r ihl ihr =>
    intro p new h
    cases p with
    | nil => simpa [Library.replace_at, Library.subtree_at] using h
    | cons b p =>
      cases b with
      | false =>
        simp only [Library.replace_at, Library.subtree_at, in_order_names_node] at h ⊢
        exact List.Sublist.append (ihl p new h) (List.Sublist.refl _)
      | true =>
        simp only [Library.replace_at, Library.subtree_at, in_order_names_node] at h ⊢
        exact List.Sublist.append (List.Sublist.refl _) (List.Sublist.cons₂ _ (ihr p new h))

/-- Whatever `remove_song_from_tree` returns, the `song_name` fields of the nodes it leaves are,
in order, a sublist of those it was given. -/
theorem remove_song_from_tree_names (C : Library.codes_t) (fuel : Nat) :
    ∀ (t : Library.tree_node_t) (song_name : String) (t1 : Library.tree_node_t) (code : Int),
    remove_song_from_tree C fuel t song_name = .ok (t1, code) →
    (in_order_names t1).Sublist (in_order_names t) := by
  induction fuel with
  | zero => intro t n t1 code h; simp [remove_song_from_tree] at h
  | succ f ih =>
    intro t n t1 code h
    cases t with
    | null =>
      simp only [remove_song_from_tree, Res.ok.injEq, Prod.mk.injEq] at h
      rw [← h.1]
    | node k s l r =>
      rw [remove_song_from_tree] at h
      by_cases h0 : strcmp n s.name = 0
      · rw [if_pos h0] at h
        exact remove_node_names C _ ih _ _ _ h
      · rw [if_neg h0] at h
        cases hp : find_parent_pointer (.node k s l r) n with
        | none =>
          rw [hp] at h
          simp only [Res.ok.injEq, Prod.mk.injEq] at h
          rw [← h.1]
        | some p =>
          rw [hp] at h
          simp only at h
          cases hs : Library.subtree_at (.node k s l r) p with
          | null =>
            rw [hs] at h
            simp only [Res.ok.injEq, Prod.mk.injEq] at h
            rw [← h.1]
          | node pk ps pl pr =>
            rw [hs] at h
            simp only at h
            by_cases hl : Library.name_matches n pl = true
            · rw [if_pos hl] at h
              cases hr : remove_node C (remove_song_from_tree C f) pl with
              | ok res =>
                obtain ⟨pl1, code1⟩ := res
                rw [hr] at h
                simp only [Res.ok.injEq, Prod.mk.injEq] at h
                rw [← h.1]
                apply replace_at_names
                rw [hs, in_order_names_node, in_order_names_node]
                exact List.Sublist.append (remove_node_names C _ ih _ _ _ hr)
                  (List.Sublist.refl _)
              | fuel => rw [hr] at h; simp at h
              | assertFail => rw [hr] at h; simp at h
              | shortRead => rw [hr] at h; simp at h
            · rw [if_neg hl] at h
              by_cases hrm : Library.name_matches n pr = true
              · rw [if_pos hrm] at h
                cases hr : remove_node C (remove_song_from_tree C f) pr with
                | ok res =>
                  obtain ⟨pr1, code1⟩ := res
                  rw [hr] at h
                  simp only [Res.ok.injEq, Prod.mk.injEq] at h
                  rw [← h.1]
                  apply replace_at_names
                  rw [hs, in_order_names_node, in_order_names_node]
                  exact List.Sublist.append (List.Sublist.refl _)
                    (List.Sublist.cons₂ _ (remove_node_names C _ ih _ _ _ hr))
                | fuel => rw [hr] at h; simp at h
                | assertFail => rw [hr] at h; simp at h
                | shortRead => rw [hr] at h; simp at h
              · rw [if_neg hrm] at h
                simp only [Res.ok.injEq, Prod.mk.injEq] at h
                rw [← h.1]

theorem tree_insert_mem (C : Library.codes_t) (name : String) (song : Library.song_t)
    (t : Library.tree_node_t) (x : String)
    (hx : x ∈ in_order_names (tree_insert C t name song .null .null).1) :
    x ∈ in_order_names t ∨ x = name := by
  induction t with
  | null =>
    simp only [tree_insert, in_order_names_node, in_order_names_null, List.nil_append,
      List.mem_singleton] at hx
    exact Or.inr hx
  | node k s l r ihl ihr =>
    rw [tree_insert] at hx
    rw [in_order_names_node]
    split_ifs at hx
    · rw [in_order_names_node] at hx
      exact Or.inl hx
    · simp only [in_order_names_node, List.mem_append, List.mem_cons] at hx ⊢
      rcases hx with h | h | h
      · rcases ihl h with h1 | h1
        · exact Or.inl (Or.inl h1)
        · exact Or.inr h1
      · exact Or.inl (Or.inr (Or.inl h))
      · exact Or.inl (Or.inr (Or.inr h))
    · simp only [in_order_names_node, List.mem_append, List.mem_cons] at hx ⊢
      rcases hx with h | h | h
      · exact Or.inl (Or.inl h)
      · exact Or.inl (Or.inr (Or.inl h))
      · rcases ihr h with h1 | h1
        · exact Or.inl (Or.inr (Or.inr h1))
        · exact Or.inr h1

theorem tree_insert_names_sorted (C : Library.codes_t) (name : String) (song : Library.song_t)
    (t : Library.tree_node_t) (h : (in_order_names t).Sorted (· < ·)) :
    (in_order_names (tree_insert C t name song .null .null).1).Sorted (· < ·) := by
  induction t with
  | null =>
    simp [tree_insert, in_order_names_node, in_order_names_null]
  | node k s l r ihl ihr =>
    rw [in_order_names_node] at h
    have h0 := h
    rw [List.Sorted, List.pairwise_append, List.pairwise_cons] at h
    obtain ⟨hsl, ⟨hkr, hsr⟩, hlr⟩ := h
    rw [tree_insert]
    split_ifs with hc0 hlt
    · rw [in_order_names_node]
      exact h0
    · have hlt1 : name < k := (strcmp_neg name k).mp hlt
      simp only [in_order_names_node]
      rw [List.Sorted, List.pairwise_append, List.pairwise_cons]
      refine ⟨ihl hsl, ⟨hkr, hsr⟩, ?_⟩
      intro a ha b hb
      rcases tree_insert_mem C name song l a ha with h1 | h1
      · exact hlr a h1 b hb
      · rw [h1]
        rcases List.mem_cons.mp hb with h2 | h2
        · rw [h2]; exact hlt1
        · exact lt_trans hlt1 (hkr b h2)
    · have hgt : k < name := by
        rcases lt_trichotomy name k with h1 | h1 | h1
        · exact absurd ((strcmp_neg name k).mpr h1) hlt
        · exact absurd ((strcmp_eq_zero name k).mpr h1) hc0
        · exact h1
      simp only [in_order_names_node]
      rw [List.Sorted, List.pairwise_append, List.pairwise_cons]
      refine ⟨hsl, ⟨?_, ihr hsr⟩, ?_⟩
      · intro b hb
        rcases tree_insert_mem C name song r b hb with h1 | h1
        · exact hkr b h1
        · rw [h1]; exact hgt
      · intro a ha b hb
        rcases List.mem_cons.mp hb with h2 | h2
        · rw [h2]; exact hlr a ha k (by simp)
        · rcases tree_insert_mem C name song r b h2 with h1 | h1
          · exact hlr a ha b (by simp [h1])
          · rw [h1]; exact lt_trans (hlr a ha k (by simp)) hgt

/-! ## `remove_song_from_tree` always returns -/

theorem tree_size_set_successor_song (temp : Library.song_t) (t : Library.tree_node_t) :
    Library.tree_size (Library.set_successor_song temp t) = Library.tree_size t := by
  induction t with
  | null => rfl
  | node k s l r ihl _ =>
    cases l with
    | null => simp only [Library.set_successor_song, Library.tree_size]
    | node lk ls ll lr =>
      simp only [Library.set_successor_song, Library.tree_size] at ihl ⊢
      rw [ihl]

theorem tree_size_subtree_at (t : Library.tree_node_t) : ∀ p : List Bool,
    Library.tree_size (Library.subtree_at t p) ≤ Library.tree_size t := by
  induction t with
  | null =>
    intro p
    cases p <;> simp [Library.subtree_at, Library.tree_size]
  | node k s l r ihl ihr =>
    intro p
    cases p with
    | nil => simp [Library.subtree_at]
    | cons b p =>
      cases b with
      | false =>
        simp only [Library.subtree_at, Library.tree_size]
        have := ihl p
        omega
      | true =>
        simp only [Library.subtree_at, Library.tree_size]
        have := ihr p
        omega

theorem remove_node_total (C : Library.codes_t)
    (recur : Library.tree_node_t → String → Res (Library.tree_node_t × Int))
    (node : Library.tree_node_t)
    (hrec : ∀ t n, Library.tree_size t < Library.tree_size node → ∃ res, recur t n = .ok res) :
    ∃ res, remove_node C recur node = .ok res := by
  cases node with
  | null => exact ⟨_, rfl⟩
  | node k s l r =>
    cases l with
    | null => exact ⟨_, rfl⟩
    | node lk ls ll lr =>
      cases r with
      | null => exact ⟨_, rfl⟩
      | node rk rs rl rr =>
        obtain ⟨res, hres⟩ := hrec (Library.set_successor_song s (.node rk rs rl rr)) s.name
          (by
            rw [tree_size_set_successor_song]
            simp only [Library.tree_size]
            omega)
        simp only [remove_node, hres]
        exact ⟨_, rfl⟩

/-- With a loop budget above the number of nodes `remove_song_from_tree` returns. -/
theorem remove_song_from_tree_total (C : Library.codes_t) (fuel : Nat) :
    ∀ (t : Library.tree_node_t) (song_name : String), Library.tree_size t < fuel →
    ∃ res, remove_song_from_tree C fuel t song_name = .ok res := by
  induction fuel with
  | zero => intro t n h; omega
  | succ f ih =>
    intro t n hsize
    cases t with
    | null => exact ⟨_, rfl⟩
    | node k s l r =>
      rw [remove_song_from_tree]
      have hsize1 : Library.tree_size l + Library.tree_size r + 1 < f + 1 := by
        simpa only [Library.tree_size] using hsize
      by_cases h0 : strcmp n s.name = 0
      · rw [if_pos h0]
        exact remove_node_total C _ _ (fun t1 n1 h1 => ih t1 n1 (by omega))
      · rw [if_neg h0]
        cases hp : find_parent_pointer (.node k s l r) n with
        | none => exact ⟨_, rfl⟩
        | some p =>
          simp only
          have hsub := tree_size_subtree_at (.node k s l r) p
          cases hs : Library.subtree_at (.node k s l r) p with
          | null => exact ⟨_, rfl⟩
          | node pk ps pl pr =>
            rw [hs] at hsub
            simp only [Library.tree_size] at hsub
            simp only
            by_cases hl : Library.name_matches n pl = true
            · rw [if_pos hl]
              obtain ⟨res, hres⟩ := remove_node_total C (remove_song_from_tree C f) pl
                (fun t1 n1 h1 => ih t1 n1 (by omega))
              rw [hres]
              exact ⟨_, rfl⟩
            · rw [if_neg hl]
              by_cases hr : Library.name_matches n pr = true
              · rw [if_pos hr]
                obtain ⟨res, hres⟩ := remove_node_total C (remove_song_from_tree C f) pr
                  (fun t1 n1 h1 => ih t1 n1 (by omega))
                rw [hres]
                exact ⟨_, rfl⟩
              · rw [if_neg hr]
                exact ⟨_, rfl⟩

/-! ## C24 -/

/-- The `song_name` fields of the nodes, which `tree_insert` compares and no function writes
after the node is made, are in strictly ascending order on every reachable tree. The songs the
nodes point to, whose names `print_node` prints, are another matter. -/
theorem reachable_names_sorted (C : Library.codes_t) (t : Library.tree_node_t)
    (h : Reachable C t) : (in_order_names t).Sorted (· < ·) := by
  induction h with
  | empty => simp [in_order_names_null]
  | insert t name song _ ih => exact tree_insert_names_sorted C name song t ih
  | remove t t1 fuel song_name code _ hrem ih =>
    exact List.Pairwise.sublist (remove_song_from_tree_names C fuel t song_name t1 code hrem) ih

theorem reachable_build_tree (C : Library.codes_t) (names : List String) :
    Reachable C (build_tree C names) := by
  have h : ∀ (ns : List String) (t : Library.tree_node_t), Reachable C t →
      Reachable C (ns.foldl (fun t n => (tree_insert C t n ⟨n, n⟩ .null .null).1) t) := by
    intro ns
    induction ns with
    | nil => intro t ht; exact ht
    | cons n ns ih => intro t ht; exact ih _ (Reachable.insert t n ⟨n, n⟩ ht)
  exact h names .null Reachable.empty

/-- C24: the tree left by inserting "m", "d", "t", "p" into the empty tree and then calling
`remove_song_from_tree` for "m" is reachable, and `traverse_in_order` with the visitor
`print_node` visits the song names "d", "p", "m", "t" on it, which are not in ascending order:
the call swapped the songs of the nodes "m" and "p" and then failed to remove anything. -/
theorem reachable_tree_not_in_order (C : Library.codes_t) :
    Reachable C
      (.node "m" ⟨"p", "p"⟩ (.node "d" ⟨"d", "d"⟩ .null .null)
        (.node "t" ⟨"t", "t"⟩ (.node "p" ⟨"m", "m"⟩ .null .null) .null)) ∧
    in_order_song_names
      (.node "m" ⟨"p", "p"⟩ (.node "d" ⟨"d", "d"⟩ .null .null)
        (.node "t" ⟨"t", "t"⟩ (.node "p" ⟨"m", "m"⟩ .null .null) .null)) =
      ["d", "p", "m", "t"] ∧
    ¬ (in_order_song_names
      (.node "m" ⟨"p", "p"⟩ (.node "d" ⟨"d", "d"⟩ .null .null)
        (.node "t" ⟨"t", "t"⟩ (.node "p" ⟨"m", "m"⟩ .null .null) .null))).Sorted (· < ·) := by
  have hnames : in_order_song_names
      (.node "m" ⟨"p", "p"⟩ (.node "d" ⟨"d", "d"⟩ .null .null)
        (.node "t" ⟨"t", "t"⟩ (.node "p" ⟨"m", "m"⟩ .null .null) .null)) =
      ["d", "p", "m", "t"] := by
    simp [in_order_song_names, traverse_in_order, print_node]
  have hpm : ¬ ("p" : String) < "m" := by
    rw [String.lt_iff_toList_lt]
    decide
  refine ⟨?_, hnames, ?_⟩
  · exact Reachable.remove (build_tree C ["m", "d", "t", "p"]) _ 2 "m" C.SONG_NOT_FOUND
      (reachable_build_tree C ["m", "d", "t", "p"]) (remove_m_swaps_then_fails C 0)
  · rw [hnames]
    intro h
    simp only [List.Sorted, List.pairwise_cons] at h
    exact hpm (h.2.1 "m" (by simp))

/-! ## C25 -/

/-- C25: `remove_song_from_tree` for "m" on the tree built from "m", "d", "t", "p" returns
`SONG_NOT_FOUND`, and the tree is not what it was: the root now holds the song "p" and the node
"p" holds the song "m", so `print_node` visits "d", "p", "m", "t". -/
theorem remove_not_found_after_swap (C : Library.codes_t) (fuel : Nat) :
    (remove_song_from_tree C (fuel + 2) (build_tree C ["m", "d", "t", "p"]) "m").mapOk
        (fun r => (r.1, in_order_song_names r.1, r.2)) =
      .ok (.node "m" ⟨"p", "p"⟩ (.node "d" ⟨"d", "d"⟩ .null .null)
            (.node "t" ⟨"t", "t"⟩ (.node "p" ⟨"m", "m"⟩ .null .null) .null),
           ["d", "p", "m", "t"], C.SONG_NOT_FOUND) ∧
    build_tree C ["m", "d", "t", "p"] ≠
      .node "m" ⟨"p", "p"⟩ (.node "d" ⟨"d", "d"⟩ .null .null)
        (.node "t" ⟨"t", "t"⟩ (.node "p" ⟨"m", "m"⟩ .null .null) .null) ∧
    in_order_song_names (build_tree C ["m", "d", "t", "p"]) = ["d", "m", "p", "t"] := by
  refine ⟨?_, ?_, ?_⟩
  · rw [remove_m_swaps_then_fails]
    simp [Res.mapOk, in_order_song_names, traverse_in_order, print_node]
  · rw [build_tree_m_d_t_p]
    simp +decide
  · rw [build_tree_m_d_t_p]
    simp [in_order_song_names, traverse_in_order, print_node]

/-! ## C26 -/

/-- C26: a song whose single event is a program change with program 7, and a mapping whose
entry for 7 is the sentinel -1. `remap_instruments` leaves the event and returns 0;
`apply_to_events` with `change_event_instrument` writes the byte 255 and returns 1. -/
theorem remap_paths_differ_on_sentinel :
    remap_instruments 12 mapping_5_to_40 ⟨⟨96⟩, [⟨[⟨0, 12, [], [7]⟩], 3⟩]⟩ =
      (⟨⟨96⟩, [⟨[⟨0, 12, [], [7]⟩], 3⟩]⟩, 0) ∧
    apply_to_events ⟨⟨96⟩, [⟨[⟨0, 12, [], [7]⟩], 3⟩]⟩
        (change_event_instrument ⟨9, 8, 10, 12⟩ mapping_5_to_40) =
      (⟨⟨96⟩, [⟨[⟨0, 12, [], [255]⟩], 3⟩]⟩, 1) := by
  decide

theorem remap_events_agree (K : Alter.kinds_t) (mapping : Nat → Int)
    (events : List Alter.event_t) : ∀ n : Int,
    (∀ e ∈ events, e.type = K.PROGRAM_CHANGE → mapping (e.data.getD 0 0) ≠ -1) →
    remap_instruments_events K.PROGRAM_CHANGE mapping events n =
      apply_to_events_events (change_event_instrument K mapping) events n := by
  induction events with
  | nil => intro n _; rfl
  | cons e es ih =>
    intro n h
    have hes := fun m => ih m (fun x hx => h x (by simp [hx]))
    by_cases hty : e.type = K.PROGRAM_CHANGE
    · have hm := h e (by simp) hty
      simp only [remap_instruments_events, apply_to_events_events, change_event_instrument,
        if_pos hty, if_pos hm, hes, ne_eq, hty, not_true_eq_false, if_false, if_true]
    · simp only [remap_instruments_events, apply_to_events_events, change_event_instrument,
        if_neg hty, hes, ne_eq, hty, not_false_eq_true, if_true, if_false, add_zero]

theorem remap_tracks_agree (K : Alter.kinds_t) (mapping : Nat → Int)
    (tracks : List Alter.track_t) : ∀ n : Int,
    (∀ t ∈ tracks, ∀ e ∈ t.events, e.type = K.PROGRAM_CHANGE →
      mapping (e.data.getD 0 0) ≠ -1) →
    remap_instruments_tracks K.PROGRAM_CHANGE mapping tracks n =
      apply_to_events_tracks (change_event_instrument K mapping) tracks n := by
  induction tracks with
  | nil => intro n _; rfl
  | cons t ts ih =>
    intro n h
    have hts := fun m => ih m (fun x hx => h x (by simp [hx]))
    simp only [remap_instruments_tracks, apply_to_events_tracks,
      remap_events_agree K mapping t.events n (h t (by simp)), hts]

/-- When the two macros for a program change have one value and no program-change event of the
song has the sentinel as its entry, `remap_instruments` and `apply_to_events` with
`change_event_instrument` give the same song and the same return value. -/
theorem remap_paths_agree_without_sentinel (K : Alter.kinds_t) (mapping : Nat → Int)
    (song : Alter.song_data_t)
    (h : ∀ e ∈ Alter.all_events song, e.type = K.PROGRAM_CHANGE →
      mapping (e.data.getD 0 0) ≠ -1) :
    remap_instruments K.PROGRAM_CHANGE mapping song =
      apply_to_events song (change_event_instrument K mapping) := by
  simp only [remap_instruments, apply_to_events]
  rw [remap_tracks_agree K mapping song.tracks 0 (fun t ht e he => h e (by
    simp only [Alter.all_events, List.mem_flatMap]
    exact ⟨t, ht, he⟩))]

end MidiFile
